import Mathlib

/-!
Verification of the hndigest / hn_digest curation pipeline.

The Python sources are shallowly embedded: pure functions become Lean
functions on `List Char` / `String`, the story dictionaries become
structures, the on-disk caches become finite maps represented as
functions `String → Option String`, and every network collaborator
(generation API, posting API) becomes an explicit oracle parameter.
All recursion is structural so that concrete runs reduce inside the
kernel.
-/

namespace HNDigest

/-! ## Python string primitives -/

/-- The ASCII whitespace characters recognised by Python `str.strip()`. -/
def isPySpace (c : Char) : Bool :=
  c = (' ') ∨ c = (Char.ofNat 9) ∨ c = (Char.ofNat 10) ∨ c = (Char.ofNat 13) ∨
    c = (Char.ofNat 11) ∨ c = (Char.ofNat 12)

/-- Drop leading whitespace (the left half of Python `str.strip()`). -/
def stripL (l : List Char) : List Char := l.dropWhile isPySpace

/-- Drop trailing whitespace (the right half of Python `str.strip()`). -/
def stripR (l : List Char) : List Char := (stripL l.reverse).reverse

/-- Python `str.strip()` on char lists. -/
def pyStripList (l : List Char) : List Char := stripR (stripL l)

/-- Python `str.strip()` on strings. -/
def pyStrip (s : String) : String := String.mk (pyStripList s.data)

/-- Python `str.strip(chars)`: drop the given characters from both ends. -/
def stripCharsList (cs : List Char) (l : List Char) : List Char :=
  (((l.dropWhile (fun c => cs.contains c)).reverse.dropWhile
      (fun c => cs.contains c)).reverse)

/-- Python `str.strip(chars)` on strings. -/
def stripChars (cs : List Char) (s : String) : String :=
  String.mk (stripCharsList cs s.data)

/-- Python `str.lower()` (ASCII, which is all the code relies on). -/
def pyLower (s : String) : String := String.mk (s.data.map Char.toLower)

/-- Contiguous-sublist test on char lists. -/
def listInfixCheck (needle : List Char) : List Char → Bool
  | [] => needle.isEmpty
  | c :: rest => needle.isPrefixOf (c :: rest) || listInfixCheck needle rest

/-- Python `needle in hay` substring test. -/
def strContains (hay needle : String) : Bool :=
  listInfixCheck needle.data hay.data

/-- Python `str.split(sep)` for a one-character separator, on char lists.
`chSplit c []` is `[[]]`, matching Python `"".split(sep) == [""]`. -/
def chSplit (sep : Char) : List Char → List (List Char)
  | [] => [[]]
  | c :: rest =>
    match chSplit sep rest with
    | [] => [[]]
    | g :: gs => if c = sep then [] :: g :: gs else (c :: g) :: gs

/-- Python `str.split(sep, 1)`: split at the first occurrence only.
Returns `none` when the separator does not occur (Python returns a
one-element list in that case). -/
def splitOnce (sep : Char) (l : List Char) : Option (List Char × List Char) :=
  let before := l.takeWhile (fun c => c ≠ sep)
  if before.length = l.length then none
  else some (before, l.drop (before.length + 1))

/-- Fuel-driven worker for Python `str.replace`: replaces every
non-overlapping occurrence of `needle`, scanning left to right.  The
fuel starts at the length of the list and each step consumes one unit
while consuming at least one character, so the fuel never runs out. -/
def replaceGo (needle repl : List Char) : Nat → List Char → List Char
  | _, [] => []
  | 0, l => l
  | fuel + 1, c :: rest =>
    if needle ≠ [] ∧ needle.isPrefixOf (c :: rest) then
      repl ++ replaceGo needle repl fuel ((c :: rest).drop needle.length)
    else
      c :: replaceGo needle repl fuel rest

/-- Python `str.replace(old, new)` (all occurrences, left to right,
non-overlapping).  The `old == ""` corner case never occurs in the
sources and is mapped to the identity. -/
def pyReplace (s pat repl : String) : String :=
  String.mk (replaceGo pat.data repl.data s.data.length s.data)

/-- The ASCII character of one decimal digit. -/
def digitChar (d : Nat) : Char :=
  if d = 0 then ('0') else if d = 1 then ('1') else if d = 2 then ('2')
  else if d = 3 then ('3') else if d = 4 then ('4') else if d = 5 then ('5')
  else if d = 6 then ('6') else if d = 7 then ('7') else if d = 8 then ('8')
  else ('9')

/-- Decimal digits of a natural number, fuel-driven so that it reduces
structurally (mirrors Python `str(n)` for a non-negative int). -/
def natDigitsGo : Nat → Nat → List Char → List Char
  | 0, _, acc => acc
  | fuel + 1, n, acc =>
    let d := digitChar (n % 10)
    if n < 10 then d :: acc else natDigitsGo fuel (n / 10) (d :: acc)

/-- Python `str(n)` for a natural number. -/
def natRepr (n : Nat) : String := String.mk (natDigitsGo (n + 1) n [])

/-- Python `int(s)` restricted to non-empty all-ASCII-digit strings;
anything else raises `ValueError` in Python and is `none` here.  (The
sources only ever reach this after checking that the first character is
a digit; Python underscore-separated literals are not modelled.) -/
def pyParseNat (s : String) : Option Nat :=
  if s.data ≠ [] ∧ s.data.all Char.isDigit then
    some (s.data.foldl (fun a c => 10 * a + (c.toNat - 48)) 0)
  else none

/-! ## hndigest/hn.py — the Selector -/

/-- A raw story as produced by `_parse_hits` in `hndigest/hn.py`. -/
structure Story where
  id : Nat
  title : String
  url : String
  points : Int
  comments : Int
deriving DecidableEq, Repr

/-- A selected story: `select_stories` adds the derived `score` and
`domain` keys to the story dict. -/
structure SelStory where
  id : Nat
  title : String
  url : String
  points : Int
  comments : Int
  score : Int
  domain : String
deriving DecidableEq, Repr

/-- `JOB_WORDS` from `hndigest/config.py`. -/
def JOB_WORDS : List String :=
  [("hiring"), ("who is hiring"), ("who wants to be hired"), ("freelancer"),
   ("job"), ("career")]

/-- Characters allowed in a URL scheme by `urllib.parse`. -/
def isSchemeChar (c : Char) : Bool :=
  c.isAlpha ∨ c.isDigit ∨ c = ('+') ∨ c = ('-') ∨ c = ('.')

/-- Strip a leading `scheme:` from a URL as `urllib.parse.urlsplit`
does: the first `:` ends the scheme if the part before it is non-empty,
starts with a letter and contains only scheme characters. -/
def splitScheme (l : List Char) : List Char :=
  let before := l.takeWhile (fun c => c ≠ (':'))
  if before.length = l.length then l
  else if before ≠ [] then
    if (before.headD (' ')).isAlpha ∧ before.all isSchemeChar then
      l.drop (before.length + 1)
    else l
  else l

/-- `urllib.parse.urlparse(url).netloc`: present only when the text
after the optional scheme starts with `//`, and runs to the first of
`/`, `?`, `#`. -/
def pyNetloc (url : String) : String :=
  let rest := splitScheme url.data
  if [('/'), ('/')].isPrefixOf rest then
    String.mk ((rest.drop 2).takeWhile
      (fun c => ¬ (c = ('/') ∨ c = ('?') ∨ c = ('#'))))
  else String.mk []

/-- The filtering and enrichment step of `select_stories`: drop job
postings and low-signal URL-less stories, compute `score` and `domain`. -/
def storyFilterMap (s : Story) : Option SelStory :=
  let titleLower := pyLower s.title
  if JOB_WORDS.any (fun w => strContains titleLower w) then none
  else if s.url = String.mk [] ∧ s.title.length < 20 then none
  else some
    { id := s.id, title := s.title, url := s.url, points := s.points,
      comments := s.comments, score := s.points + s.comments * 2,
      domain :=
        if s.url = String.mk [] then String.mk []
        else pyReplace (pyNetloc s.url) ("www.") (String.mk []) }

/-- The `filtered` list built by the first loop of `select_stories`. -/
def selectFiltered (stories : List Story) : List SelStory :=
  stories.filterMap storyFilterMap

/-- Stable insertion for the descending sort: an element moves past
exactly the elements of strictly greater score, so ties keep their
original order, matching Python `list.sort(key=..., reverse=True)`. -/
def insertDesc (s : SelStory) : List SelStory → List SelStory
  | [] => [s]
  | t :: rest => if s.score < t.score then t :: insertDesc s rest else s :: t :: rest

/-- `filtered.sort(key=lambda x: x["score"], reverse=True)` (stable). -/
def sortByScoreDesc (l : List SelStory) : List SelStory :=
  l.foldr insertDesc []

/-- The greedy per-domain cap walk of `select_stories`: admit a story
when fewer than 3 admitted stories share its domain, stop as soon as
`limit` stories are admitted. -/
def selectLoop (limit : Nat) :
    List SelStory → (String → Nat) → List SelStory → List SelStory
  | [], _, result => result
  | s :: rest, counts, result =>
    let d := s.domain
    let hit := counts d < 3
    let result2 := if hit then result ++ [s] else result
    let counts2 : String → Nat :=
      if hit then fun x => if x = d then counts d + 1 else counts x else counts
    if limit ≤ result2.length then result2 else selectLoop limit rest counts2 result2

/-- `select_stories` from `hndigest/hn.py`. -/
def select_stories (stories : List Story) (limit : Nat) : List SelStory :=
  selectLoop limit (sortByScoreDesc (selectFiltered stories)) (fun _ => 0) []

/-! ## hn_digest/process.py — the Enricher

The generation API (`httpx` session) is modelled as an oracle
`net : Nat → GenResponse` giving the response to the n-th attempt of
the run; `time.sleep` is modelled by recording the requested durations;
the `CACHE_DIR` file store is a map `String → Option String` keyed by
cache key.  `hashlib.md5` is idealised as an injective digest (the
identity on its input), which preserves the only property the pipeline
relies on: identical inputs give identical keys, distinct story ids
give distinct keys. -/

/-- `Channel` from `hn_digest/config.py` (the fields `process_stories`
and `format_digest` read). -/
structure Channel where
  id : String
  telegram : String
  title : String
  language : String
  prompt : String
  footer : String
  first_issue_date : String
  days : Nat
  limit : Nat
  min_points : Int
deriving DecidableEq, Repr

/-- `StoryResult` from `hn_digest/process.py`. -/
structure StoryResult where
  category : String
  is_top : Bool
  translation : String
  summary : String
deriving DecidableEq, Repr

/-- Modelled from the spec: `hn_digest/categorize.py` (imported by
`hn_digest/process.py` for `VALID_CATEGORIES`) is absent from the
sources.  The spec describes a 12-label taxonomy whose default bucket
is `other`; the assignable set is taken from the category list of
`PROCESS_PROMPT` in `hn_digest/process.py` (show_hn / ask_hn are
"detected separately", never assigned by the generation call). -/
def VALID_CATEGORIES : List String :=
  [("ai"), ("code"), ("data"), ("science"), ("security"), ("design"),
   ("business"), ("work"), ("learn"), ("other")]

/-- The per-part test of `_extract_field`: the stripped part starts
with `field=`. -/
def fieldPred (field : String) (part : List Char) : Bool :=
  (field.data ++ [('=')]).isPrefixOf (pyStripList part)

/-- `_extract_field` from `hndigest/categorize.py` (the identically
named helper imported by `hn_digest/process.py` from the absent
`hn_digest/categorize.py`): find the first comma-separated part that
starts with `field=` and return the stripped text after the first `=`. -/
def extract_field (text field : String) : String :=
  match (chSplit (',') text.data).find? (fieldPred field) with
  | some part =>
    String.mk (pyStripList
      ((pyStripList part).drop (field.data ++ [('=')]).length))
  | none => String.mk []

/-- The quote characters stripped from parsed titles and summaries:
`"` and the apostrophe. -/
def quoteChars : List Char := [Char.ofNat 34, Char.ofNat 39]

/-- `_content_hash` from `hn_digest/process.py`, with md5 idealised as
an injective digest (see the section comment). -/
def content_hash (content : String) : String := content

/-- `_cache_key_for_story` from `hn_digest/process.py`: the digest of
`"process_v1|{id}|{title}|{content_h}|{language}"`, again with md5
idealised away so the key is the pre-image string itself. -/
def cache_key_for_story (s : Story) (content language : String) : String :=
  let contentH := if content = String.mk [] then ("empty") else content_hash content
  String.mk (("process_v1|").data ++ (natRepr s.id).data ++ [('|')] ++
    s.title.data ++ [('|')] ++ contentH.data ++ [('|')] ++ language.data)

/-- `_parse_cache_line` from `hn_digest/process.py`. -/
def parse_cache_line (val : String) : Option StoryResult :=
  let cat := extract_field val ("category")
  let rank := extract_field val ("rank")
  let title := extract_field val ("title")
  let summary := extract_field val ("summary")
  if VALID_CATEGORIES.contains cat then
    some { category := cat, is_top := rank = ("top"), translation := title,
           summary := summary }
  else none

/-- `_serialize_result` from `hn_digest/process.py`. -/
def serialize_result (r : StoryResult) : String :=
  let rank := if r.is_top then ("top") else ("regular")
  String.mk (("category=").data ++ r.category.data ++ (",rank=").data ++
    rank.data ++ (",title=").data ++ r.translation.data ++
    (",summary=").data ++ r.summary.data)

/-- The field extraction half of `_parse_result_line`, applied to the
text after the leading `<number>.`: category and rank are read from the
lowercased text, title and summary from the original text (case
preserved) with surrounding quote characters stripped; an unrecognised
category is coerced to `other`. -/
def mkLineResult (rest : String) : StoryResult :=
  let restLower := pyLower rest
  let cat := extract_field restLower ("category")
  let rank := extract_field restLower ("rank")
  let title := extract_field rest ("title")
  let summary := extract_field rest ("summary")
  let catF := if VALID_CATEGORIES.contains cat then cat else ("other")
  { category := catF, is_top := rank = ("top"),
    translation := stripChars quoteChars title,
    summary := stripChars quoteChars summary }

/-- The index-parsing half of `_parse_result_line`: strip the line,
require a leading digit, split on the first `.`, parse the 0-based
index (Python `int(...) - 1`), and return it with the stripped rest. -/
def parseLineNum (line : String) : Option (Int × String) :=
  let l := pyStripList line.data
  match l with
  | [] => none
  | c :: _ =>
    if ¬ c.isDigit then none
    else
      match splitOnce ('.') l with
      | none => none
      | some (numPart, restPart) =>
        match pyParseNat (pyStrip (String.mk numPart)) with
        | none => none
        | some n =>
          some ((n : Int) - 1, pyStrip (String.mk restPart))

/-- `_parse_result_line` from `hn_digest/process.py`. -/
def parse_result_line (line : String) : Option (Int × StoryResult) :=
  match parseLineNum line with
  | none => none
  | some (num, rest) => some (num, mkLineResult rest)

/-- The response of the generation API to one attempt. -/
inductive GenResponse
  | ok (text : String)
  | rateLimited
  | otherError
deriving DecidableEq, Repr

/-- The on-disk enrichment cache: key to file contents. -/
def Cache : Type := String → Option String

/-- `cache_file.write_text(...)`. -/
def cacheWrite (cache : Cache) (k v : String) : Cache :=
  fun x => if x = k then some v else cache x

/-- Python-dict insertion for the id-keyed result maps: replace the
value in place when the key exists, append otherwise. -/
def dictInsert (k : Nat) (v : StoryResult) :
    List (Nat × StoryResult) → List (Nat × StoryResult)
  | [] => [(k, v)]
  | (k0, v0) :: rest =>
    if k0 = k then (k0, v) :: rest else (k0, v0) :: dictInsert k v rest

/-- Python-dict lookup for the id-keyed result maps. -/
def dictGet (d : List (Nat × StoryResult)) (k : Nat) : Option StoryResult :=
  match d.find? (fun p => p.1 = k) with
  | some p => some p.2
  | none => none

/-- The cache-scan loop at the top of `process_stories`: for every
story, read its cache file and keep the parsed value when it parses. -/
def cacheScan (stories : List Story) (contents : Nat → String)
    (language : String) (cache : Cache) : List (Nat × StoryResult) :=
  stories.foldl
    (fun acc s =>
      match cache (cache_key_for_story s (contents s.id) language) with
      | some v =>
        match parse_cache_line (pyStrip v) with
        | some r => dictInsert s.id r acc
        | none => acc
      | none => acc)
    []

/-- The contribution of one response line inside `process_stories`:
`none` when the line does not parse or its 0-based index falls outside
`[0, N)`; otherwise the addressed story with its result. -/
def lineContribution (stories : List Story) (line : String) :
    Option (Story × StoryResult) :=
  match parse_result_line line with
  | none => none
  | some (num, r) =>
    if 0 ≤ num ∧ num < (stories.length : Int) then
      match stories[num.toNat]? with
      | some st => some (st, r)
      | none => none
    else none

/-- The response-parsing loop of `process_stories`: fold the lines,
recording each successfully addressed result in the result dict and
writing it back to the cache immediately. -/
def parseAndCache (stories : List Story) (contents : Nat → String)
    (language : String) (cache : Cache) (text : String) :
    List (Nat × StoryResult) × Cache :=
  (chSplit (Char.ofNat 10) (pyStripList text.data)).foldl
    (fun acc lineCs =>
      match lineContribution stories (String.mk lineCs) with
      | none => acc
      | some (st, r) =>
        (dictInsert st.id r acc.1,
         cacheWrite acc.2
           (cache_key_for_story st (contents st.id) language)
           (serialize_result r)))
    ([], cache)

/-- The observable outcome of one `process_stories` run: the returned
result dict, the final cache, the number of generation-API attempts
actually issued, and the `time.sleep` durations requested, in order. -/
structure ProcOutcome where
  results : List (Nat × StoryResult)
  cache : Cache
  calls : Nat
  sleeps : List Nat

/-- The `for attempt in range(3)` retry loop of `process_stories`,
structurally recursive on the remaining attempts (`remaining + attempt
= 3`).  A 200 response is parsed and returned; a 429 sleeps
`10 * (attempt + 1)` seconds and retries; any other failure (HTTP error
or exception) breaks out; exhausting the loop returns the cache-scan
results. -/
def processAttempts (stories : List Story) (contents : Nat → String)
    (language : String) (cached : List (Nat × StoryResult))
    (net : Nat → GenResponse) :
    Nat → Nat → Cache → List Nat → ProcOutcome
  | 0, attempt, cache, sleeps => ⟨cached, cache, attempt, sleeps⟩
  | remaining + 1, attempt, cache, sleeps =>
    match net attempt with
    | .ok text =>
      let rc := parseAndCache stories contents language cache text
      ⟨rc.1, rc.2, attempt + 1, sleeps⟩
    | .rateLimited =>
      processAttempts stories contents language cached net
        remaining (attempt + 1) cache (sleeps ++ [10 * (attempt + 1)])
    | .otherError => ⟨cached, cache, attempt + 1, sleeps⟩

/-- `process_stories` from `hn_digest/process.py`.  `api_key` and the
story list guard the top; the cache is scanned first and the network is
skipped entirely when every story hits; otherwise the retry loop runs
(prompt construction has no observable effect in this model because the
oracle already fixes every response, so it is not reproduced). -/
def process_stories (api_key : String) (stories : List Story)
    (contents : Nat → String) (channel : Channel) (cache : Cache)
    (net : Nat → GenResponse) : ProcOutcome :=
  if api_key = String.mk [] ∨ stories = [] then ⟨[], cache, 0, []⟩
  else
    let cached := cacheScan stories contents channel.language cache
    if cached.length = stories.length then ⟨cached, cache, 0, []⟩
    else processAttempts stories contents channel.language cached net 3 0 cache []

/-! ## hn_digest/config.py — category tables and helpers -/

/-- Lookup in an association list (Python `dict.get`). -/
def alistGet {α : Type} (l : List (String × α)) (k : String) : Option α :=
  match l.find? (fun p => p.1 = k) with
  | some p => some p.2
  | none => none

/-- `CATEGORY_NAMES` from `hn_digest/config.py`. -/
def CATEGORY_NAMES : List (String × List (String × String)) :=
  [(("top"), [(("uz"), ("Eng yaxshilar")), (("ru"), ("Лучшее")), (("en"), ("Top"))]),
   (("ai"), [(("uz"), ("AI")), (("ru"), ("AI")), (("en"), ("AI"))]),
   (("code"), [(("uz"), ("Kod")), (("ru"), ("Код")), (("en"), ("Code"))]),
   (("data"), [(("uz"), ("Ma\x27lumotlar")), (("ru"), ("Данные")), (("en"), ("Data"))]),
   (("science"), [(("uz"), ("Fan")), (("ru"), ("Наука")), (("en"), ("Science"))]),
   (("security"), [(("uz"), ("Xavfsizlik")), (("ru"), ("Безопасность")), (("en"), ("Security"))]),
   (("design"), [(("uz"), ("Dizayn")), (("ru"), ("Дизайн")), (("en"), ("Design"))]),
   (("business"), [(("uz"), ("Biznes")), (("ru"), ("Бизнес")), (("en"), ("Business"))]),
   (("work"), [(("uz"), ("Ish")), (("ru"), ("Работа")), (("en"), ("Work"))]),
   (("learn"), [(("uz"), ("O\x27rganish")), (("ru"), ("Обучение")), (("en"), ("Learn"))]),
   (("show_hn"), [(("uz"), ("Show HN")), (("ru"), ("Show HN")), (("en"), ("Show HN"))]),
   (("ask_hn"), [(("uz"), ("Ask HN")), (("ru"), ("Ask HN")), (("en"), ("Ask HN"))]),
   (("other"), [(("uz"), ("Boshqalar")), (("ru"), ("Другое")), (("en"), ("Other"))])]

/-- `LABELS` from `hn_digest/config.py`. -/
def LABELS : List (String × List (String × String)) :=
  [(("points"), [(("uz"), ("ball")), (("ru"), ("баллов")), (("en"), ("points"))]),
   (("comments"), [(("uz"), ("izoh")), (("ru"), ("комм.")), (("en"), ("comments"))])]

/-- `MONTHS` from `hn_digest/config.py`. -/
def MONTHS : List (String × List String) :=
  [(("uz"), [("yan"), ("fev"), ("mar"), ("apr"), ("may"), ("iyun"), ("iyul"),
             ("avg"), ("sen"), ("okt"), ("noy"), ("dek")]),
   (("ru"), [("янв"), ("фев"), ("мар"), ("апр"), ("май"), ("июн"), ("июл"),
             ("авг"), ("сен"), ("окт"), ("ноя"), ("дек")]),
   (("en"), [("Jan"), ("Feb"), ("Mar"), ("Apr"), ("May"), ("Jun"), ("Jul"),
             ("Aug"), ("Sep"), ("Oct"), ("Nov"), ("Dec")])]

/-- `CATEGORIES` from `hn_digest/config.py`: ordered
`(key, keywords, domains)` rules for the keyword fallback classifier. -/
def CATEGORIES : List (String × List String × List String) :=
  [(("ai"),
    ([("ai"), ("gpt"), ("llm"), ("chatgpt"), ("openai"), ("anthropic"),
      ("gemini"), ("claude"), ("machine learning"), ("neural"), ("transformer"),
      ("diffusion"), ("deepmind"), ("copilot"), ("midjourney"),
      ("stable diffusion"), ("mistral"), ("llama"), ("waymo"), ("self-driving"),
      ("autonomous"), ("model")],
     [("openai.com"), ("anthropic.com"), ("deepmind.com"), ("huggingface.co")])),
   (("code"),
    ([("rust"), ("python"), ("javascript"), ("typescript"), ("golang"),
      ("compiler"), ("programming"), ("git"), ("linux"), ("kernel"), ("api"),
      ("open source"), ("docker"), ("kubernetes"), ("devops"), ("nginx"),
      ("vim"), ("emacs"), ("neovim"), ("terminal"), ("cli")],
     [("github.com"), ("gitlab.com"), ("dev.to"), ("sourceware.org")])),
   (("data"),
    ([("database"), ("sql"), ("postgres"), ("redis"), ("data"), ("analytics"),
      ("bigquery"), ("elasticsearch"), ("mongodb"), ("sqlite"), ("cassandra")],
     [("postgresql.org")])),
   (("science"),
    ([("research"), ("paper"), ("study"), ("physics"), ("biology"),
      ("chemistry"), ("math"), ("space"), ("nasa"), ("telescope"), ("quantum"),
      ("genome"), ("climate"), ("neuroscience"), ("arxiv"), ("peer review"),
      ("experiment")],
     [("arxiv.org"), ("nature.com"), ("science.org"), ("nasa.gov")])),
   (("security"),
    ([("security"), ("vulnerability"), ("breach"), ("malware"), ("ransomware"),
      ("exploit"), ("zero-day"), ("privacy"), ("encryption"), ("backdoor"),
      ("hijack"), ("cve"), ("phishing"), ("infosec")],
     [("krebsonsecurity.com"), ("schneier.com")])),
   (("design"),
    ([("typography"), ("typeface"), ("font"), ("ui design"), ("ux design"),
      ("css"), ("animation"), ("svg"), ("color palette"), ("figma"),
      ("accessibility")],
     [("figma.com"), ("dribbble.com")])),
   (("business"),
    ([("startup"), ("founder"), ("yc"), ("ycombinator"), ("funding"),
      ("series a"), ("acquisition"), ("ipo"), ("valuation"), ("layoff"),
      ("regulation"), ("law"), ("ban"), ("government"), ("congress"),
      ("court"), ("lawsuit"), ("antitrust"), ("policy"), ("legal"), ("fcc"),
      ("ftc"), ("firm"), ("cloud"), ("eu-native"), ("digital autonomy"),
      ("big tech")],
     [("techcrunch.com"), ("ycombinator.com"), ("theregister.com")])),
   (("work"),
    ([("remote work"), ("career"), ("hiring culture"), ("management"),
      ("interview"), ("workplace"), ("burnout"), ("salary"), ("freelance"),
      ("work-life")],
     [])),
   (("learn"),
    ([("tutorial"), ("guide"), ("how to"), ("learn"), ("course"),
      ("introduction to"), ("beginner"), ("walkthrough")],
     [("freecodecamp.org"), ("coursera.org")])),
   (("show_hn"), ([("show hn")], [])),
   (("ask_hn"), ([("ask hn")], []))]

/-- A story dict as it reaches the Assembler: the selected story plus
the keys the CLI adds before formatting (`category`, `is_top`).  An
absent / falsy `category` key is represented by the empty string. -/
structure FmtStory where
  id : Nat
  title : String
  url : String
  points : Int
  comments : Int
  score : Int
  domain : String
  category : String
  isTop : Bool
deriving DecidableEq, Repr

/-- `category_name` from `hn_digest/config.py`. -/
def category_name (key language : String) : String :=
  match alistGet CATEGORY_NAMES key with
  | some names => (alistGet names language).getD key
  | none => key

/-- `categorize_story` from `hn_digest/config.py`: Show HN / Ask HN
keywords take absolute priority, then the first rule whose keywords
match the lowercased title or whose domains match the lowercased
story domain wins; no match falls through to `other`. -/
def categorize_story (s : FmtStory) : String :=
  let titleLower := pyLower s.title
  let domainLower := pyLower s.domain
  let prio := [("show_hn"), ("ask_hn")].find? (fun key =>
    match alistGet CATEGORIES key with
    | some rules => rules.1.any (fun kw => strContains titleLower kw)
    | none => false)
  match prio with
  | some key => key
  | none =>
    match CATEGORIES.find? (fun rule =>
        ¬ (rule.1 = ("show_hn") ∨ rule.1 = ("ask_hn")) ∧
        (rule.2.1.any (fun kw => strContains titleLower kw) ∨
         rule.2.2.any (fun d => strContains domainLower d))) with
    | some rule => rule.1
    | none => ("other")

/-! ## hn_digest/formatter.py — the Assembler -/

/-- `escape_html` from `hn_digest/formatter.py`:
`text.replace("&", "&amp;").replace("<", "&lt;").replace(">", "&gt;")`. -/
def escape_html (text : String) : String :=
  pyReplace (pyReplace (pyReplace text ("&") ("&amp;")) ("<") ("&lt;")) (">") ("&gt;")

/-- `format_category_header` from `hn_digest/formatter.py`. -/
def format_category_header (catKey lang : String) : String :=
  ("<b># ") ++ category_name catKey lang ++ ("</b>")

/-- Python `str(i)` for an int. -/
def pyIntRepr (i : Int) : String :=
  if i < 0 then String.mk (('-') :: (natRepr i.natAbs).data) else natRepr i.toNat

/-- `LABELS[kind].get(lang, default)`. -/
def labelGet (kind lang deflt : String) : String :=
  match alistGet LABELS kind with
  | some m => (alistGet m lang).getD deflt
  | none => deflt

/-- `HN_ITEM.format(id)` from `hn_digest/config.py`. -/
def hnItemUrl (id : Nat) : String :=
  ("https://news.ycombinator.com/item?id=") ++ natRepr id

/-- The no-break space used in metadata lines (` `). -/
def nbsp : String := String.mk [Char.ofNat 160]

/-- The middle dot used in metadata lines (`·`). -/
def middot : String := String.mk [Char.ofNat 183]

/-- `format_story_lines` from `hn_digest/formatter.py`: bold (possibly
linked) title, optional escaped summary, italic metadata line. -/
def format_story_lines (s : FmtStory) (titles : Nat → Option String)
    (summaries : Option (Nat → Option String)) (lang : String) : List String :=
  let title := escape_html ((titles s.id).getD s.title)
  let url := s.url
  let hnUrl := hnItemUrl s.id
  let lblPoints := labelGet ("points") lang ("points")
  let lblComments := labelGet ("comments") lang ("comments")
  let cat := s.category
  let isHnThread := cat = ("show_hn") ∨ cat = ("ask_hn")
  let titleLine :=
    if isHnThread then
      ("<b><a href=\"") ++ hnUrl ++ ("\">") ++ title ++ ("</a></b>")
    else if url ≠ String.mk [] then
      ("<b><a href=\"") ++ url ++ ("\">") ++ title ++ ("</a></b>")
    else ("<b>") ++ title ++ ("</b>")
  let withSummary :=
    if ¬ isHnThread then
      let summary := (((summaries.getD (fun _ => none)) s.id).getD (String.mk []))
      if summary ≠ String.mk [] then [titleLine, escape_html summary] else [titleLine]
    else [titleLine]
  let metaLine :=
    if isHnThread then
      ("<i>") ++ pyIntRepr s.points ++ nbsp ++ lblPoints ++ (" ") ++ middot ++
        (" ") ++ pyIntRepr s.comments ++ nbsp ++ lblComments ++ ("</i>")
    else
      ("<i>") ++ pyIntRepr s.points ++ nbsp ++ lblPoints ++ (" ") ++ middot ++
        (" <a href=\"") ++ hnUrl ++ ("\">") ++ pyIntRepr s.comments ++ nbsp ++
        lblComments ++ ("</a></i>")
  withSummary ++ [metaLine]

/-- The top-section selection of `format_digest`: stories flagged top,
falling back to the first 10 when none is flagged, truncated to 10. -/
def topStoriesOf (stories : List FmtStory) : List FmtStory :=
  let flagged := stories.filter (fun s => s.isTop)
  (if flagged = [] then stories.take 10 else flagged).take 10

/-- The ids of the top-section stories (the `top_ids` set). -/
def topIdsOf (stories : List FmtStory) : List Nat :=
  (topStoriesOf stories).map (fun s => s.id)

/-- The effective category of a story in `format_digest`:
`s.get("category") or categorize_story(s)`. -/
def effCategory (s : FmtStory) : String :=
  if s.category = String.mk [] then categorize_story s else s.category

/-- The per-category group of `format_digest`: non-top stories of the
given effective category, in input order. -/
def categoryGroup (stories : List FmtStory) (cat : String) : List FmtStory :=
  stories.filter (fun s =>
    ¬ (topIdsOf stories).contains s.id ∧ effCategory s = cat)

/-- The stories actually rendered in one category section (capped at 5). -/
def sectionStories (stories : List FmtStory) (cat : String) : List FmtStory :=
  (categoryGroup stories cat).take 5

/-- The fixed `category_order` of `format_digest`. -/
def categoryOrder : List String :=
  [("ai"), ("code"), ("data"), ("science"), ("security"), ("design"),
   ("business"), ("work"), ("learn"), ("show_hn"), ("ask_hn"), ("other")]

/-- A calendar date as far as the formatter needs one. -/
structure PyDate where
  day : Nat
  month : Nat
  year : Nat
deriving DecidableEq, Repr

/-- The newline joining the lines of one message. -/
def nlStr : String := String.mk [Char.ofNat 10]

/-- `months[m - 1]` (Python raises on an out-of-range month; total here). -/
def monthName (months : List String) (m : Nat) : String :=
  (months[m - 1]?).getD (String.mk [])

/-- One category reply message of `format_digest` (the body of the
category loop), rendered from a story group. -/
def categoryMessage (titles : Nat → Option String)
    (summaries : Option (Nat → Option String)) (lang tag catKey : String)
    (catStories : List FmtStory) : String :=
  String.intercalate nlStr
    ([format_category_header catKey lang] ++
     (catStories.take 5).foldr (fun s acc =>
       (String.mk [] :: format_story_lines s titles summaries lang) ++ acc) [] ++
     [String.mk [], tag])

/-- `format_digest` from `hn_digest/formatter.py`.  The wall clock is
supplied by the environment: `now` and `start = now - channel.days` as
dates, and `sinceFirstDays = (now - first_issue).days`; the issue
number `max(1, days // 7 + 1)` uses Python floor division. -/
def format_digest (channel : Channel) (stories : List FmtStory)
    (titles : Nat → Option String) (summaries : Option (Nat → Option String))
    (now start : PyDate) (sinceFirstDays : Int) : List String :=
  let issue : Int := max 1 (Int.fdiv sinceFirstDays 7 + 1)
  let lang := channel.language
  let months := (alistGet MONTHS lang).getD
    ((alistGet MONTHS ("en")).getD [])
  let startStr := natRepr start.day ++ (" ") ++ monthName months start.month
  let nowStr := natRepr now.day ++ (" ") ++ monthName months now.month ++
    (" ") ++ natRepr now.year
  let sums := summaries
  let top := topStoriesOf stories
  let header := ("<b>") ++ channel.title ++ (" #") ++ pyIntRepr issue ++
    ("</b> | <i>") ++ startStr ++ (" ") ++ String.mk [Char.ofNat 8212] ++
    (" ") ++ nowStr ++ ("</i>")
  let tag := ("#digest_") ++ pyIntRepr issue
  let mainLines := [header, String.mk [], format_category_header ("top") lang] ++
    top.foldr (fun s acc =>
      (String.mk [] :: format_story_lines s titles sums lang) ++ acc) [] ++
    [String.mk [], channel.footer, tag]
  let catMsgs := categoryOrder.filterMap (fun catKey =>
    let catStories := categoryGroup stories catKey
    if catStories = [] then none
    else some (categoryMessage titles sums lang tag catKey catStories))
  String.intercalate nlStr mainLines :: catMsgs

/-! ## hndigest/telegram.py — the Publisher

`post_to_telegram` is modelled by an oracle `oracle : Nat → Option Nat`
giving, for the n-th post call of the run (the root is call 0), the
assigned message id, or `none` when the post fails.  The outcome
records every attempted post `(text, reply_to)` in order, the
`edit_message` calls, and the collected reply ids. -/

/-- The observable outcome of one `post_thread` run. -/
structure ThreadOutcome where
  success : Bool
  posts : List (String × Option Nat)
  edits : List (Nat × String)
  replyIds : List Nat

/-- The reply loop of `post_thread`: post each remaining message as a
reply to the root; a failed reply is skipped (its id is simply not
collected) and the loop continues. -/
def postReplies (oracle : Nat → Option Nat) (mainId : Nat) :
    List String → Nat → List (String × Option Nat) × List Nat
  | [], _ => ([], [])
  | msg :: rest, idx =>
    let out := postReplies oracle mainId rest (idx + 1)
    match oracle idx with
    | some mid => ((msg, some mainId) :: out.1, mid :: out.2)
    | none => ((msg, some mainId) :: out.1, out.2)

/-- `post_thread` from `hndigest/telegram.py`.  (The `hn_digest`
variant is the same function with `reply_categories` and the edit
callback fixed to `none`.) -/
def post_thread (messages : List String)
    (replyCategories : Option (List String))
    (editCallback : Option (String → List String → List Nat → String))
    (oracle : Nat → Option Nat) : ThreadOutcome :=
  match messages with
  | [] => ⟨false, [], [], []⟩
  | main :: rest =>
    match oracle 0 with
    | none => ⟨false, [(main, none)], [], []⟩
    | some mainId =>
      let pr := postReplies oracle mainId rest 1
      let replyIds := pr.2
      let edits :=
        match replyCategories, editCallback with
        | some cats, some cb =>
          if cats ≠ [] ∧ replyIds.length = cats.length then
            let updated := cb main cats replyIds
            if updated ≠ main then [(mainId, updated)] else []
          else []
        | _, _ => []
      ⟨true, (main, none) :: pr.1, edits, replyIds⟩

/-! ## Selector lemmas -/

theorem mem_insertDesc (t s : SelStory) :
    ∀ l : List SelStory, t ∈ insertDesc s l → t = s ∨ t ∈ l := by
  intro l
  induction l with
  | nil =>
    intro h
    simp only [insertDesc, List.mem_singleton] at h
    exact Or.inl h
  | cons a rest ih =>
    intro h
    simp only [insertDesc] at h
    by_cases hc : s.score < a.score
    · rw [if_pos hc] at h
      rcases List.mem_cons.mp h with h1 | h2
      · exact Or.inr (List.mem_cons.mpr (Or.inl h1))
      · rcases ih h2 with h3 | h4
        · exact Or.inl h3
        · exact Or.inr (List.mem_cons.mpr (Or.inr h4))
    · rw [if_neg hc] at h
      rcases List.mem_cons.mp h with h1 | h2
      · exact Or.inl h1
      · exact Or.inr h2

theorem mem_sortByScoreDesc (t : SelStory) :
    ∀ l : List SelStory, t ∈ sortByScoreDesc l → t ∈ l := by
  intro l
  induction l with
  | nil => intro h; simp [sortByScoreDesc] at h
  | cons a rest ih =>
    intro h
    have h2 : t ∈ insertDesc a (sortByScoreDesc rest) := h
    rcases mem_insertDesc t a _ h2 with h3 | h4
    · exact List.mem_cons.mpr (Or.inl h3)
    · exact List.mem_cons.mpr (Or.inr (ih h4))

theorem mem_selectLoop (t : SelStory) :
    ∀ (pending : List SelStory) (limit : Nat) (counts : String → Nat)
      (result : List SelStory),
    t ∈ selectLoop limit pending counts result → t ∈ pending ∨ t ∈ result := by
  intro pending
  induction pending with
  | nil =>
    intro limit counts result h
    exact Or.inr h
  | cons s rest ih =>
    intro limit counts result h
    by_cases hhit : counts s.domain < 3 <;>
      simp only [selectLoop, hhit, if_true, if_false, ite_true, ite_false] at h <;>
      split at h
    · rcases List.mem_append.mp h with h1 | h2
      · exact Or.inr h1
      · exact Or.inl (List.mem_cons.mpr (Or.inl (List.mem_singleton.mp h2)))
    · rcases ih _ _ _ h with h1 | h2
      · exact Or.inl (List.mem_cons.mpr (Or.inr h1))
      · rcases List.mem_append.mp h2 with h3 | h4
        · exact Or.inr h3
        · exact Or.inl (List.mem_cons.mpr (Or.inl (List.mem_singleton.mp h4)))
    · exact Or.inr h
    · rcases ih _ _ _ h with h1 | h2
      · exact Or.inl (List.mem_cons.mpr (Or.inr h1))
      · exact Or.inr h2

theorem selectFiltered_domain (stories : List Story) (t : SelStory)
    (h : t ∈ selectFiltered stories) :
    t.domain = if t.url = String.mk [] then String.mk []
               else pyReplace (pyNetloc t.url) ("www.") (String.mk []) := by
  rcases List.mem_filterMap.mp h with ⟨s, _, hmap⟩
  by_cases h1 : JOB_WORDS.any (fun w => strContains (pyLower s.title) w)
  · simp [storyFilterMap, h1] at hmap
  · by_cases h2 : s.url = String.mk [] ∧ s.title.length < 20
    · simp [storyFilterMap, h1, h2] at hmap
    · simp only [storyFilterMap, h1, h2, if_false, Option.some.injEq,
        Bool.false_eq_true, ite_false] at hmap
      rw [← hmap]

theorem select_mem_domain (stories : List Story) (limit : Nat) (t : SelStory)
    (h : t ∈ select_stories stories limit) :
    t.domain = if t.url = String.mk [] then String.mk []
               else pyReplace (pyNetloc t.url) ("www.") (String.mk []) := by
  rcases mem_selectLoop t _ _ _ _ h with h1 | h2
  · exact selectFiltered_domain stories t (mem_sortByScoreDesc t _ h1)
  · simp at h2

theorem selectLoop_countP (d : String) :
    ∀ (pending : List SelStory) (limit : Nat) (counts : String → Nat)
      (result : List SelStory),
    result.countP (fun t => decide (t.domain = d)) = counts d → counts d ≤ 3 →
    (selectLoop limit pending counts result).countP
      (fun t => decide (t.domain = d)) ≤ 3 := by
  intro pending
  induction pending with
  | nil =>
    intro limit counts result hinv hle
    have hred : (selectLoop limit [] counts result).countP
        (fun t => decide (t.domain = d)) = counts d := hinv
    omega
  | cons s rest ih =>
    intro limit counts result hinv hle
    have happ1 : d = s.domain →
        (result ++ [s]).countP (fun t => decide (t.domain = d)) = counts d + 1 := by
      intro hd2
      rw [List.countP_append, hinv]
      have h1 : List.countP (fun t => decide (t.domain = d)) [s] = 1 := by
        simp [hd2]
      rw [h1]
    have happ2 : ¬ d = s.domain →
        (result ++ [s]).countP (fun t => decide (t.domain = d)) = counts d := by
      intro hd2
      rw [List.countP_append, hinv]
      have hd2s : ¬ (s.domain = d) := fun hc => hd2 (Eq.symm hc)
      have h1 : List.countP (fun t => decide (t.domain = d)) [s] = 0 := by
        simp [hd2s]
      rw [h1, Nat.add_zero]
    by_cases hhit : counts s.domain < 3 <;>
      simp only [selectLoop, hhit, if_true, if_false, ite_true, ite_false] <;>
      split
    · -- admitted, limit reached: return result ++ [s]
      by_cases hd2 : d = s.domain
      · rw [happ1 hd2, hd2]
        omega
      · rw [happ2 hd2]
        exact hle
    · -- admitted, continue
      apply ih
      · by_cases hd2 : d = s.domain
        · rw [happ1 hd2, if_pos hd2, hd2]
        · rw [happ2 hd2, if_neg hd2]
      · by_cases hd2 : d = s.domain
        · rw [if_pos hd2]
          omega
        · rw [if_neg hd2]
          exact hle
    · -- capped, limit reached: return result
      rw [hinv]
      exact hle
    · -- capped, continue
      exact ih _ _ _ hinv hle

theorem selectLoop_length :
    ∀ (pending : List SelStory) (limit : Nat) (counts : String → Nat)
      (result : List SelStory),
    1 ≤ limit → result.length < limit →
    (selectLoop limit pending counts result).length ≤ limit := by
  intro pending
  induction pending with
  | nil =>
    intro limit counts result _ hlt
    exact Nat.le_of_lt hlt
  | cons s rest ih =>
    intro limit counts result hlim hlt
    have happ : (result ++ [s]).length = result.length + 1 := by simp
    by_cases hhit : counts s.domain < 3 <;>
      simp only [selectLoop, hhit, if_true, if_false, ite_true, ite_false] <;>
      split
    · rw [happ]
      omega
    next h =>
      apply ih _ _ _ hlim
      rw [happ] at h
      omega
    · exact Nat.le_of_lt hlt
    · exact ih _ _ _ hlim hlt

/-! ## Claim C2 — selector caps -/

/-- C2 (amended): for every story list, the selector returns at most
`limit` stories whenever `limit ≥ 1`, and for every domain value at
most 3 returned stories share that domain.  (For `limit = 0` the code
admits one story before checking the bound — see the counterexample.) -/
theorem c2_selector_caps (stories : List Story) (limit : Nat) :
    (1 ≤ limit → (select_stories stories limit).length ≤ limit) ∧
    ∀ d : String,
      (select_stories stories limit).countP
        (fun t => decide (t.domain = d)) ≤ 3 := by
  constructor
  · intro hlim
    unfold select_stories
    exact selectLoop_length _ _ _ _ hlim hlim
  · intro d
    unfold select_stories
    exact selectLoop_countP d _ _ _ _ rfl (by omega)

/-- Witness for C2 at a concrete run. -/
theorem c2_selector_caps_witness :
    1 ≤ 2 ∧
    (select_stories [⟨1, ("a story title that is long enough"),
      ("https://example.com/a"), 10, 0⟩] 2).length ≤ 2 :=
  ⟨by decide, (c2_selector_caps _ 2).1 (by decide)⟩

/-- C2 counterexample: with `limit = 0` the selector still returns one
story, because `len(result) >= limit` is only checked after a story has
been admitted. -/
theorem c2_selector_caps_counterexample :
    ¬ ((select_stories [⟨1, ("a story title that is long enough"),
        ("https://example.com/a"), 10, 0⟩] 0).length ≤ 0) := by
  decide

/-! ## Claim C7 — selected story domains -/

/-- The domain rule as the spec words it (used only to refute C7 as
stated): strip one leading `www.` from the host and nothing else. -/
def specLeadingWwwStripped (host : String) : String :=
  if ("www.").data.isPrefixOf host.data then String.mk (host.data.drop 4)
  else host

/-- C7 (amended): every selected story with a URL gets as domain the
URL netloc with every occurrence of the substring `www.` removed (not
just a leading prefix — `str.replace` replaces all occurrences); every
story without a URL gets the empty domain. -/
theorem c7_selected_domain (stories : List Story) (limit : Nat) (t : SelStory)
    (ht : t ∈ select_stories stories limit) :
    t.domain = if t.url = String.mk [] then String.mk []
               else pyReplace (pyNetloc t.url) ("www.") (String.mk []) :=
  select_mem_domain stories limit t ht

/-- Witness for C7 at a concrete run. -/
theorem c7_selected_domain_witness :
    ((⟨1, ("a story title that is long enough"), ("https://example.com/a"),
        10, 0, 10, ("example.com")⟩ : SelStory) ∈
      select_stories [⟨1, ("a story title that is long enough"),
        ("https://example.com/a"), 10, 0⟩] 5) ∧
    (⟨1, ("a story title that is long enough"), ("https://example.com/a"),
        10, 0, 10, ("example.com")⟩ : SelStory).domain =
      (if (⟨1, ("a story title that is long enough"), ("https://example.com/a"),
          10, 0, 10, ("example.com")⟩ : SelStory).url = String.mk []
       then String.mk []
       else pyReplace (pyNetloc (⟨1, ("a story title that is long enough"),
          ("https://example.com/a"), 10, 0, 10,
          ("example.com")⟩ : SelStory).url) ("www.") (String.mk [])) :=
  ⟨by decide,
   c7_selected_domain
     [⟨1, ("a story title that is long enough"), ("https://example.com/a"),
        10, 0⟩] 5
     ⟨1, ("a story title that is long enough"), ("https://example.com/a"),
        10, 0, 10, ("example.com")⟩ (by decide)⟩

/-- C7 counterexample: a URL with an interior `www.` — the code removes
it as well, while the claim predicts only the leading prefix goes. -/
theorem c7_selected_domain_counterexample :
    ((select_stories [⟨1, ("interior wexample title"),
        ("https://www.example.www.com/x"), 10, 0⟩] 5).map
      (fun t => t.domain) = [("example.com")]) ∧
    specLeadingWwwStripped (pyNetloc ("https://www.example.www.com/x")) =
      ("example.www.com") ∧
    ¬ ((("example.com") : String) = ("example.www.com")) := by
  decide

/-! ## Claim C9 — URL-less stories fall under the empty-domain cap -/

/-- C9: all URL-less stories share the empty domain, and the per-domain
cap of 3 applies to the empty domain like any other, so at most 3
URL-less stories are ever selected. -/
theorem c9_urlless_cap (stories : List Story) (limit : Nat) :
    (select_stories stories limit).countP
      (fun t => decide (t.url = String.mk [])) ≤ 3 := by
  have hmono : (select_stories stories limit).countP
      (fun t => decide (t.url = String.mk [])) ≤
      (select_stories stories limit).countP
      (fun t => decide (t.domain = String.mk [])) := by
    apply List.countP_mono_left
    intro t ht hurl
    have hd := select_mem_domain stories limit t ht
    simp only [decide_eq_true_eq] at hurl ⊢
    rw [hd, if_pos hurl]
  have hcap : (select_stories stories limit).countP
      (fun t => decide (t.domain = String.mk [])) ≤ 3 := by
    unfold select_stories
    exact selectLoop_countP _ _ _ _ _ rfl (by omega)
  omega

/-! ## Publisher lemmas -/

theorem filterMap_ext {α β : Type} (f g : α → Option β) (h : ∀ a, f a = g a) :
    ∀ l : List α, l.filterMap f = l.filterMap g := by
  intro l
  induction l with
  | nil => rfl
  | cons a rest ih =>
    simp only [List.filterMap_cons, h a, ih]

theorem filterMap_length_lt {α β : Type} (f : α → Option β) :
    ∀ (l : List α) (a : α), a ∈ l → f a = none →
    (l.filterMap f).length < l.length := by
  intro l
  induction l with
  | nil => intro a ha; simp at ha
  | cons b rest ih =>
    intro a ha hfa
    rcases List.mem_cons.mp ha with hab | harest
    · subst hab
      rw [List.filterMap_cons, hfa]
      have := List.length_filterMap_le f rest
      simp only [List.length_cons]
      omega
    · rw [List.filterMap_cons]
      cases hfb : f b with
      | none =>
        have := List.length_filterMap_le f rest
        simp only [List.length_cons]
        omega
      | some v =>
        have := ih a harest hfa
        simp only [List.length_cons]
        omega

theorem filterMap_range_succ_shift {β : Type} (f : Nat → Option β) (n idx : Nat) :
    (List.range (n + 1)).filterMap (fun i => f (idx + i)) =
      (match f idx with
       | some v => [v]
       | none => []) ++
        (List.range n).filterMap (fun i => f ((idx + 1) + i)) := by
  rw [List.range_succ_eq_map, List.filterMap_cons, List.filterMap_map]
  have hshift : (List.range n).filterMap
      ((fun i => f (idx + i)) ∘ Nat.succ) =
      (List.range n).filterMap (fun i => f ((idx + 1) + i)) := by
    apply filterMap_ext
    intro a
    have hx : idx + Nat.succ a = (idx + 1) + a := by omega
    simp only [Function.comp]
    rw [hx]
  rw [hshift, Nat.add_zero]
  cases hf : f idx <;> simp

theorem postReplies_spec (oracle : Nat → Option Nat) (mainId : Nat) :
    ∀ (msgs : List String) (idx : Nat),
    (postReplies oracle mainId msgs idx).1 =
      msgs.map (fun m => (m, some mainId)) ∧
    (postReplies oracle mainId msgs idx).2 =
      (List.range msgs.length).filterMap (fun i => oracle (idx + i)) := by
  intro msgs
  induction msgs with
  | nil => intro idx; exact ⟨rfl, rfl⟩
  | cons msg rest ih =>
    intro idx
    have hr := filterMap_range_succ_shift oracle rest.length idx
    cases h0 : oracle idx with
    | none =>
      rw [h0] at hr
      refine ⟨?_, ?_⟩
      · simp only [postReplies, h0, List.map_cons]
        rw [(ih (idx + 1)).1]
      · simp only [postReplies, h0, List.length_cons]
        rw [(ih (idx + 1)).2, hr, List.nil_append]
    | some v =>
      rw [h0] at hr
      refine ⟨?_, ?_⟩
      · simp only [postReplies, h0, List.map_cons]
        rw [(ih (idx + 1)).1]
      · simp only [postReplies, h0, List.length_cons]
        rw [(ih (idx + 1)).2, hr, List.singleton_append]

/-! ## Claim C5 — publisher failure semantics -/

/-- C5: for every non-empty message list, a failed root post makes
`post_thread` return failure having attempted only the root; when the
root succeeds, every reply is attempted in order as a reply to the
root id (a failed reply is skipped but posting continues), the
collected ids are exactly those of the successful reply posts, and the
run returns success. -/
theorem c5_publish_failure_semantics (main : String) (rest : List String)
    (cats : Option (List String))
    (cb : Option (String → List String → List Nat → String))
    (oracle : Nat → Option Nat) :
    (oracle 0 = none →
      (post_thread (main :: rest) cats cb oracle).success = false ∧
      (post_thread (main :: rest) cats cb oracle).posts = [(main, none)]) ∧
    (∀ mid : Nat, oracle 0 = some mid →
      (post_thread (main :: rest) cats cb oracle).success = true ∧
      (post_thread (main :: rest) cats cb oracle).posts =
        (main, none) :: rest.map (fun m => (m, some mid)) ∧
      (post_thread (main :: rest) cats cb oracle).replyIds =
        (List.range rest.length).filterMap (fun i => oracle (1 + i))) := by
  constructor
  · intro h0
    refine ⟨?_, ?_⟩ <;> simp only [post_thread, h0]
  · intro mid h0
    refine ⟨?_, ?_, ?_⟩ <;> simp only [post_thread, h0]
    · rw [(postReplies_spec oracle mid rest 1).1]
    · rw [(postReplies_spec oracle mid rest 1).2]

/-- Witness for C5 at a concrete run: three messages, the second reply
post fails, the run still succeeds with the failed reply skipped. -/
theorem c5_publish_failure_semantics_witness :
    ((fun n => if n = 2 then none else some (100 + n)) : Nat → Option Nat) 0 =
      some 100 ∧
    (post_thread [("m"), ("a"), ("b")] none none
      (fun n => if n = 2 then none else some (100 + n))).success = true ∧
    (post_thread [("m"), ("a"), ("b")] none none
      (fun n => if n = 2 then none else some (100 + n))).posts =
      [(("m"), none), (("a"), some 100), (("b"), some 100)] ∧
    (post_thread [("m"), ("a"), ("b")] none none
      (fun n => if n = 2 then none else some (100 + n))).replyIds = [101] := by
  have h := (c5_publish_failure_semantics ("m") [("a"), ("b")] none none
    (fun n => if n = 2 then none else some (100 + n))).2 100 (by decide)
  refine ⟨by decide, h.1, ?_, ?_⟩
  · rw [h.2.1]
    decide
  · rw [h.2.2]
    decide

/-! ## Claim C10 — the root rewrite happens only after full reply success -/

/-- C10: `edit_message` is reached only when the number of collected
reply ids equals the number of reply categories; in particular, when
the caller passes one category per reply (the intended use), any single
failed reply prevents the rewrite entirely. -/
theorem c10_edit_gating (main : String) (rest : List String)
    (cats : List String) (cb : String → List String → List Nat → String)
    (oracle : Nat → Option Nat) :
    ((post_thread (main :: rest) (some cats) (some cb) oracle).edits ≠ [] →
      (post_thread (main :: rest) (some cats) (some cb) oracle).replyIds.length
        = cats.length) ∧
    (cats.length = rest.length →
      (∃ i, i < rest.length ∧ oracle (i + 1) = none) →
      (post_thread (main :: rest) (some cats) (some cb) oracle).edits = []) := by
  cases h0 : oracle 0 with
  | none =>
    constructor
    · intro hne
      simp only [post_thread, h0] at hne
      exact absurd rfl hne
    · intro _ _
      simp only [post_thread, h0]
  | some mid =>
    have hids := (postReplies_spec oracle mid rest 1).2
    constructor
    · intro hne
      simp only [post_thread, h0] at hne ⊢
      by_cases hcond : cats ≠ [] ∧
          (postReplies oracle mid rest 1).2.length = cats.length
      · exact hcond.2
      · rw [if_neg hcond] at hne
        exact absurd rfl hne
    · intro hlen hex
      rcases hex with ⟨i, hi, hnone⟩
      simp only [post_thread, h0]
      have hnone1 : oracle (1 + i) = none := by
        rw [Nat.add_comm]
        exact hnone
      have hmem : i ∈ List.range rest.length := List.mem_range.mpr hi
      have hlt : (postReplies oracle mid rest 1).2.length < rest.length := by
        rw [hids]
        have h2 := filterMap_length_lt (fun j => oracle (1 + j))
          (List.range rest.length) i hmem hnone1
        rw [List.length_range] at h2
        exact h2
      have hguard : ¬ (cats ≠ [] ∧
          (postReplies oracle mid rest 1).2.length = cats.length) := by
        intro hc
        have := hc.2
        omega
      rw [if_neg hguard]

/-- Witness for C10 at a concrete run: one category, one reply, the
reply post fails, so the root is not rewritten. -/
theorem c10_edit_gating_witness :
    (List.length [("c1")] = List.length [("a")]) ∧
    (∃ i, i < List.length [("a")] ∧
      ((fun n => if n = 0 then some 5 else none) : Nat → Option Nat) (i + 1) =
        none) ∧
    (post_thread [("m"), ("a")] (some [("c1")]) (some (fun m _ _ => m))
      (fun n => if n = 0 then some 5 else none)).edits = [] := by
  refine ⟨rfl, ⟨0, by decide, rfl⟩, ?_⟩
  exact (c10_edit_gating ("m") [("a")] [("c1")] (fun m _ _ => m)
    (fun n => if n = 0 then some 5 else none)).2 rfl ⟨0, by decide, rfl⟩

/-! ## Assembler lemmas -/

theorem length_filterMap_guard {α β : Type} (p : α → Prop) [DecidablePred p]
    (g : α → β) :
    ∀ l : List α,
    (l.filterMap (fun a => if p a then none else some (g a))).length =
      (l.filter (fun a => decide (¬ (p a)))).length := by
  intro l
  induction l with
  | nil => rfl
  | cons a rest ih =>
    by_cases hp : p a
    · simp [List.filterMap_cons, List.filter_cons, hp, ih]
    · simp [List.filterMap_cons, List.filter_cons, hp, ih]

theorem take_ne_nil_of_ne_nil {α : Type} (l : List α) (n : Nat)
    (hl : l ≠ []) (hn : n ≠ 0) : l.take n ≠ [] := by
  cases l with
  | nil => exact absurd rfl hl
  | cons a rest =>
    cases n with
    | zero => exact absurd rfl hn
    | succ m => simp

/-! ## Claim C4 — assembler invariants -/

/-- C4: the top section never exceeds 10 stories and is non-empty
whenever the input is non-empty (falling back to the first 10 stories
when none is flagged top); every category section renders at most 5
stories; and the digest consists of exactly one root message plus one
message per category with a non-empty story group — empty categories
produce no message. -/
theorem c4_assembler_invariants (channel : Channel) (stories : List FmtStory)
    (titles : Nat → Option String) (summaries : Option (Nat → Option String))
    (now start : PyDate) (sinceFirstDays : Int) :
    (topStoriesOf stories).length ≤ 10 ∧
    (stories ≠ [] → topStoriesOf stories ≠ []) ∧
    (∀ cat : String, (sectionStories stories cat).length ≤ 5) ∧
    (format_digest channel stories titles summaries now start
        sinceFirstDays).length =
      1 + (categoryOrder.filter
        (fun cat => decide (¬ (categoryGroup stories cat = [])))).length := by
  refine ⟨?_, ?_, ?_, ?_⟩
  · exact List.length_take_le _ _
  · intro hne
    simp only [topStoriesOf]
    by_cases hf : stories.filter (fun s => s.isTop) = []
    · rw [if_pos hf]
      exact take_ne_nil_of_ne_nil _ _
        (take_ne_nil_of_ne_nil _ _ hne (by omega)) (by omega)
    · rw [if_neg hf]
      exact take_ne_nil_of_ne_nil _ _ hf (by omega)
  · intro cat
    exact List.length_take_le _ _
  · simp only [format_digest, List.length_cons]
    rw [length_filterMap_guard (fun cat => categoryGroup stories cat = [])]
    omega

/-- Witness for C4 at a concrete run. -/
theorem c4_assembler_invariants_witness :
    (([⟨1, ("some story"), (""), 3, 1, 5, (""), ("ai"), false⟩] :
        List FmtStory) ≠ []) ∧
    topStoriesOf [⟨1, ("some story"), (""), 3, 1, 5, (""), ("ai"), false⟩] ≠ [] :=
  ⟨by decide,
   (c4_assembler_invariants
     ⟨("hn_en"), ("@x"), ("T"), ("en"), (""), ("f"), ("2026-02-07"), 7, 50, 50⟩
     [⟨1, ("some story"), (""), 3, 1, 5, (""), ("ai"), false⟩]
     (fun _ => none) none ⟨1, 1, 2026⟩ ⟨25, 12, 2025⟩ 0).2.1 (by decide)⟩

/-! ## Escaping lemmas -/

/-- The characters of `amp;`. -/
def ampEnt : List Char := [('a'), ('m'), ('p'), (';')]

/-- The characters of `lt;`. -/
def ltEnt : List Char := [('l'), ('t'), (';')]

/-- The characters of `gt;`. -/
def gtEnt : List Char := [('g'), ('t'), (';')]

/-- Per-character escape of one &, <, > metacharacter. -/
def escChar (c : Char) : List Char :=
  if c = ('&') then ('&') :: ampEnt
  else if c = ('<') then ('&') :: ltEnt
  else if c = ('>') then ('&') :: gtEnt
  else [c]

theorem escChar_ne_nil (c : Char) : escChar c ≠ [] := by
  by_cases hAmp : c = ('&')
  · subst hAmp; decide
  · by_cases hLt : c = ('<')
    · subst hLt; decide
    · by_cases hGt : c = ('>')
      · subst hGt; decide
      · simp [escChar, hAmp, hLt, hGt]

/-- The first replace of `escape_html`, per character. -/
def escAmp (c : Char) : List Char :=
  if c = ('&') then ("&amp;").data else [c]

/-- The second replace of `escape_html`, per character. -/
def escLt (c : Char) : List Char :=
  if c = ('<') then ("&lt;").data else [c]

/-- The third replace of `escape_html`, per character. -/
def escGt (c : Char) : List Char :=
  if c = ('>') then ("&gt;").data else [c]

theorem flatMap_ext {α β : Type} (f g : α → List β) (h : ∀ a, f a = g a)
    (l : List α) : l.flatMap f = l.flatMap g := by
  rw [show f = g from funext h]

/-- A single-character `str.replace` is a per-character flat map. -/
theorem replaceGo_single (c0 : Char) (repl : List Char) :
    ∀ (l : List Char) (fuel : Nat), l.length ≤ fuel →
    replaceGo [c0] repl fuel l =
      l.flatMap (fun c => if c = c0 then repl else [c]) := by
  intro l
  induction l with
  | nil => intro fuel _; cases fuel <;> rfl
  | cons c rest ih =>
    intro fuel hlen
    cases fuel with
    | zero => simp at hlen
    | succ f =>
      simp only [List.length_cons, Nat.succ_le_succ_iff] at hlen
      by_cases hc : c0 = c
      · subst hc
        have hpre : [c0].isPrefixOf (c0 :: rest) = true := by
          simp [List.isPrefixOf]
        simp only [replaceGo, hpre, ne_eq, List.cons_ne_self,
          not_false_eq_true, true_and, if_true, List.flatMap_cons, ite_true,
          List.length_singleton, List.drop_succ_cons, List.drop_zero,
          reduceCtorEq]
        rw [ih f hlen]
      · have hpre : [c0].isPrefixOf (c :: rest) = false := by
          simp [List.isPrefixOf]
          intro h
          exact absurd h hc
        simp only [replaceGo, hpre, List.flatMap_cons, Bool.false_eq_true,
          and_false, if_false, ite_false]
        have hcc : ¬ (c = c0) := fun h => hc h.symm
        rw [ih f hlen, if_neg hcc]
        rfl

/-- `escape_html` is the per-character escape map. -/
theorem escape_html_flatMap (t : String) :
    escape_html t = String.mk (t.data.flatMap escChar) := by
  have h1 : pyReplace t ("&") ("&amp;") = String.mk (t.data.flatMap escAmp) := by
    unfold pyReplace
    rw [replaceGo_single _ _ _ _ (Nat.le_refl _)]
    rfl
  have h2 : pyReplace (String.mk (t.data.flatMap escAmp)) ("<") ("&lt;") =
      String.mk ((t.data.flatMap escAmp).flatMap escLt) := by
    unfold pyReplace
    rw [replaceGo_single _ _ _ _ (Nat.le_refl _)]
    rfl
  have h3 : pyReplace (String.mk ((t.data.flatMap escAmp).flatMap escLt))
      (">") ("&gt;") =
      String.mk (((t.data.flatMap escAmp).flatMap escLt).flatMap escGt) := by
    unfold pyReplace
    rw [replaceGo_single _ _ _ _ (Nat.le_refl _)]
    rfl
  unfold escape_html
  rw [h1, h2, h3, List.flatMap_assoc, List.flatMap_assoc]
  congr 1
  apply flatMap_ext
  intro c
  by_cases hAmp : c = ('&')
  · subst hAmp; decide
  · by_cases hLt : c = ('<')
    · subst hLt; decide
    · by_cases hGt : c = ('>')
      · subst hGt; decide
      · simp [escAmp, escLt, escGt, escChar, hAmp, hLt, hGt]

/-- No raw `<` or `>` anywhere in a char list. -/
def noTagChars (l : List Char) : Bool :=
  l.all (fun c => ¬ (c = ('<') ∨ c = ('>')))

/-- Every `&` in the list opens one of the three entities
`&amp;` `&lt;` `&gt;`. -/
def ampEntityOk : List Char → Bool
  | [] => true
  | c :: rest =>
    if c = ('&') then
      (ampEnt.isPrefixOf rest || ltEnt.isPrefixOf rest ||
        gtEnt.isPrefixOf rest) && ampEntityOk rest
    else ampEntityOk rest

theorem ampEntityOk_escChar (c : Char) (l : List Char) :
    ampEntityOk (escChar c ++ l) = ampEntityOk l := by
  by_cases hAmp : c = ('&')
  · subst hAmp
    simp [escChar, ampEnt, ltEnt, gtEnt, ampEntityOk, List.isPrefixOf]
  · by_cases hLt : c = ('<')
    · subst hLt
      simp [escChar, ampEnt, ltEnt, gtEnt, ampEntityOk, List.isPrefixOf]
    · by_cases hGt : c = ('>')
      · subst hGt
        simp [escChar, ampEnt, ltEnt, gtEnt, ampEntityOk, List.isPrefixOf]
      · have h : escChar c = [c] := by simp [escChar, hAmp, hLt, hGt]
        rw [h, List.singleton_append]
        simp [ampEntityOk, hAmp]

theorem noTagChars_escChar (c : Char) : noTagChars (escChar c) = true := by
  by_cases hAmp : c = ('&')
  · subst hAmp; rfl
  · by_cases hLt : c = ('<')
    · subst hLt; rfl
    · by_cases hGt : c = ('>')
      · subst hGt; rfl
      · have h : escChar c = [c] := by simp [escChar, hAmp, hLt, hGt]
        rw [h]
        simp [noTagChars, hLt, hGt]

/-- `escape_html` output never contains a raw markup metacharacter:
no `<`, no `>`, and every `&` opens an escape entity. -/
theorem escape_html_safe (t : String) :
    noTagChars (escape_html t).data = true ∧
    ampEntityOk (escape_html t).data = true := by
  rw [escape_html_flatMap]
  show noTagChars (t.data.flatMap escChar) = true ∧
    ampEntityOk (t.data.flatMap escChar) = true
  induction t.data with
  | nil => exact ⟨rfl, rfl⟩
  | cons c cs ih =>
    rw [List.flatMap_cons]
    constructor
    · simp only [noTagChars, List.all_append]
      have h1 := noTagChars_escChar c
      simp only [noTagChars] at h1
      rw [h1]
      have h2 := ih.1
      simp only [noTagChars] at h2
      rw [h2]
      rfl
    · rw [ampEntityOk_escChar]
      exact ih.2

/-- The summary text drawn for a story by `format_story_lines`. -/
def summaryOf (s : FmtStory) (summaries : Option (Nat → Option String)) :
    String :=
  ((summaries.getD (fun _ => none)) s.id).getD (String.mk [])

/-- `format_story_lines` with the escaped title and escaped summary
supplied from outside: no raw user text reaches the markup except the
URL, which is embedded verbatim. -/
def formatStoryLinesEsc (s : FmtStory) (title summaryEsc : String)
    (lang : String) : List String :=
  let url := s.url
  let hnUrl := hnItemUrl s.id
  let lblPoints := labelGet ("points") lang ("points")
  let lblComments := labelGet ("comments") lang ("comments")
  let cat := s.category
  let isHnThread := cat = ("show_hn") ∨ cat = ("ask_hn")
  let titleLine :=
    if isHnThread then
      ("<b><a href=\"") ++ hnUrl ++ ("\">") ++ title ++ ("</a></b>")
    else if url ≠ String.mk [] then
      ("<b><a href=\"") ++ url ++ ("\">") ++ title ++ ("</a></b>")
    else ("<b>") ++ title ++ ("</b>")
  let withSummary :=
    if ¬ isHnThread then
      if summaryEsc ≠ String.mk [] then [titleLine, summaryEsc] else [titleLine]
    else [titleLine]
  let metaLine :=
    if isHnThread then
      ("<i>") ++ pyIntRepr s.points ++ nbsp ++ lblPoints ++ (" ") ++ middot ++
        (" ") ++ pyIntRepr s.comments ++ nbsp ++ lblComments ++ ("</i>")
    else
      ("<i>") ++ pyIntRepr s.points ++ nbsp ++ lblPoints ++ (" ") ++ middot ++
        (" <a href=\"") ++ hnUrl ++ ("\">") ++ pyIntRepr s.comments ++ nbsp ++
        lblComments ++ ("</a></i>")
  withSummary ++ [metaLine]

/-- `escape_html` maps the empty string to the empty string and nothing
else to it. -/
theorem escape_html_empty_iff (t : String) :
    escape_html t = String.mk [] ↔ t = String.mk [] := by
  cases t with
  | mk d =>
    cases d with
    | nil => exact ⟨fun _ => rfl, fun _ => rfl⟩
    | cons c cs =>
      constructor
      · intro h
        exfalso
        rw [escape_html_flatMap] at h
        have hd : (c :: cs).flatMap escChar = [] := congrArg String.data h
        rw [List.flatMap_cons] at hd
        rcases List.append_eq_nil.mp hd with ⟨h1, _⟩
        exact escChar_ne_nil c h1
      · intro h
        exfalso
        have hd : c :: cs = ([] : List Char) := congrArg String.data h
        exact List.cons_ne_nil c cs hd

/-- `format_story_lines` factors through `escape_html` on its title and
summary slots. -/
theorem format_story_lines_factors (s : FmtStory)
    (titles : Nat → Option String) (summaries : Option (Nat → Option String))
    (lang : String) :
    format_story_lines s titles summaries lang =
      formatStoryLinesEsc s (escape_html ((titles s.id).getD s.title))
        (escape_html (summaryOf s summaries)) lang := by
  by_cases hs : summaryOf s summaries = String.mk []
  · have he : escape_html (summaryOf s summaries) = String.mk [] := by
      rw [hs]
      rfl
    simp only [format_story_lines, formatStoryLinesEsc, summaryOf] at *
    rw [hs] at *
    simp [he]
  · have he : ¬ (escape_html (summaryOf s summaries) = String.mk []) := by
      intro h
      exact hs ((escape_html_empty_iff _).mp h)
    simp only [format_story_lines, formatStoryLinesEsc, summaryOf] at *
    simp only [ne_eq, hs, not_false_eq_true, if_true, he, ite_true]

/-! ## Claim C3 — response-line parsing robustness -/

/-- C3 (amended): a response line that, after stripping surrounding
whitespace, does not start with a digit contributes nothing to the
result map; a parsed line whose 1-based index falls outside `[1, N]`
contributes nothing; and a line whose category value is not in the
valid set still contributes an entry for the addressed story under the
default `other` category, keeping the parsed rank flag and the
quote-trimmed, case-preserved title and summary. -/
theorem c3_parsing_robustness (stories : List Story) (line : String) :
    ((∀ c : Char, (pyStripList line.data).head? = some c →
        c.isDigit = false) →
      lineContribution stories line = none) ∧
    (∀ (num : Int) (r : StoryResult),
      parse_result_line line = some (num, r) →
      (num + 1 < 1 ∨ (stories.length : Int) < num + 1) →
      lineContribution stories line = none) ∧
    (∀ (num : Int) (rest : String), parseLineNum line = some (num, rest) →
      0 ≤ num → num < (stories.length : Int) →
      VALID_CATEGORIES.contains (extract_field (pyLower rest) ("category")) =
        false →
      ∃ st : Story, stories[num.toNat]? = some st ∧
        lineContribution stories line = some (st,
          { category := ("other"),
            is_top := extract_field (pyLower rest) ("rank") = ("top"),
            translation :=
              stripChars quoteChars (extract_field rest ("title")),
            summary :=
              stripChars quoteChars (extract_field rest ("summary")) })) := by
  refine ⟨?_, ?_, ?_⟩
  · intro h
    unfold lineContribution parse_result_line parseLineNum
    cases hl : pyStripList line.data with
    | nil => simp [hl]
    | cons c cs =>
      have hd := h c (by rw [hl]; rfl)
      simp [hl, hd]
  · intro num r hp hout
    unfold lineContribution
    rw [hp]
    have hneg : ¬ (0 ≤ num ∧ num < (stories.length : Int)) := by omega
    show (if 0 ≤ num ∧ num < (stories.length : Int) then
        match stories[num.toNat]? with
        | some st => some (st, r)
        | none => none
      else none) = none
    rw [if_neg hneg]
  · intro num rest hp h0 hlt hcat
    have hidx : num.toNat < stories.length := by omega
    refine ⟨stories[num.toNat], List.getElem?_eq_getElem hidx, ?_⟩
    have hpr : parse_result_line line = some (num, mkLineResult rest) := by
      unfold parse_result_line
      rw [hp]
    unfold lineContribution
    rw [hpr]
    show (if 0 ≤ num ∧ num < (stories.length : Int) then
        match stories[num.toNat]? with
        | some st => some (st, mkLineResult rest)
        | none => none
      else none) = _
    rw [if_pos ⟨h0, hlt⟩, List.getElem?_eq_getElem hidx]
    have hmk : mkLineResult rest =
        { category := ("other"),
          is_top := extract_field (pyLower rest) ("rank") = ("top"),
          translation := stripChars quoteChars (extract_field rest ("title")),
          summary := stripChars quoteChars (extract_field rest ("summary")) } := by
      simp only [mkLineResult]
      rw [hcat]
      rfl
    show some (stories[num.toNat], mkLineResult rest) = _
    rw [hmk]

/-- C3 counterexample: a line with leading whitespace does not start
with a digit, yet (being stripped first) it still contributes its
entry, so the claim as literally stated fails. -/
theorem c3_parsing_robustness_counterexample :
    (("  1. category=ai, rank=top, title=T, summary=S").data.head? =
      some (' ')) ∧
    (' ').isDigit = false ∧
    lineContribution [⟨1, ("T"), (""), 0, 0⟩]
        ("  1. category=ai, rank=top, title=T, summary=S") =
      some (⟨1, ("T"), (""), 0, 0⟩,
        { category := ("ai"), is_top := true, translation := ("T"),
          summary := ("S") }) := by
  refine ⟨rfl, rfl, ?_⟩
  decide

/-- Witness for C3 at concrete lines: a non-digit line and an
out-of-range line contribute nothing; an unknown category still
contributes under `other`. -/
theorem c3_parsing_robustness_witness :
    lineContribution [⟨1, ("T"), (""), 0, 0⟩] ("x. category=ai") = none ∧
    (parse_result_line
      ("7. category=ai, rank=regular, title=A, summary=B") =
      some (6, { category := ("ai"), is_top := false,
                 translation := ("A"), summary := ("B") }) ∧
     lineContribution [⟨1, ("T"), (""), 0, 0⟩]
       ("7. category=ai, rank=regular, title=A, summary=B") = none) ∧
    (parseLineNum ("1. category=banana, rank=top, title=Hi, summary=S") =
      some (0, ("category=banana, rank=top, title=Hi, summary=S")) ∧
     ∃ st : Story, [⟨1, ("T"), (""), 0, 0⟩][(0 : Int).toNat]? = some st ∧
       lineContribution [⟨1, ("T"), (""), 0, 0⟩]
           ("1. category=banana, rank=top, title=Hi, summary=S") =
         some (st,
           { category := ("other"),
             is_top := extract_field (pyLower
               ("category=banana, rank=top, title=Hi, summary=S")) ("rank") =
               ("top"),
             translation := stripChars quoteChars (extract_field
               ("category=banana, rank=top, title=Hi, summary=S")
               ("title")),
             summary := stripChars quoteChars (extract_field
               ("category=banana, rank=top, title=Hi, summary=S")
               ("summary")) })) := by
  refine ⟨?_, ⟨by decide, ?_⟩, ⟨by decide, ?_⟩⟩
  · apply (c3_parsing_robustness [⟨1, ("T"), (""), 0, 0⟩]
      ("x. category=ai")).1
    intro c hc
    have hc2 : some ('x') = some c := hc
    cases hc2
    rfl
  · exact (c3_parsing_robustness [⟨1, ("T"), (""), 0, 0⟩]
      ("7. category=ai, rank=regular, title=A, summary=B")).2.1 6
      { category := ("ai"), is_top := false, translation := ("A"),
        summary := ("B") } (by decide) (Or.inr (by decide))
  · exact (c3_parsing_robustness [⟨1, ("T"), (""), 0, 0⟩]
      ("1. category=banana, rank=top, title=Hi, summary=S")).2.2 0
      ("category=banana, rank=top, title=Hi, summary=S") (by decide)
      (by decide) (by decide) (by decide)

/-! ## Whitespace-strip lemmas (towards Claim C1) -/

theorem dropWhile_idem (p : Char → Bool) (l : List Char) :
    (l.dropWhile p).dropWhile p = l.dropWhile p := by
  induction l with
  | nil => rfl
  | cons c rest ih =>
    by_cases hc : p c = true
    · simp [List.dropWhile_cons, hc, ih]
    · simp [List.dropWhile_cons, hc]

theorem stripL_idem (l : List Char) : stripL (stripL l) = stripL l :=
  dropWhile_idem _ l

theorem stripR_idem (l : List Char) : stripR (stripR l) = stripR l := by
  unfold stripR
  rw [List.reverse_reverse, stripL_idem]

theorem stripL_cons_nonspace (c : Char) (l : List Char)
    (hc : isPySpace c = false) : stripL (c :: l) = c :: l := by
  simp [stripL, List.dropWhile_cons, hc]

theorem stripR_cons (c : Char) (rest : List Char) :
    stripR (c :: rest) =
      if stripR rest = [] then (if isPySpace c then [] else [c])
      else c :: stripR rest := by
  unfold stripR stripL
  rw [show (c :: rest).reverse = rest.reverse ++ [c] from by simp]
  rw [List.dropWhile_append]
  by_cases h : (rest.reverse.dropWhile isPySpace).isEmpty
  · rw [if_pos h]
    have h2 : (rest.reverse.dropWhile isPySpace).reverse = [] := by
      simp only [List.isEmpty_iff] at h
      rw [h]
      rfl
    rw [if_pos h2]
    by_cases hc : isPySpace c
    · simp [List.dropWhile, hc]
    · simp [List.dropWhile, hc]
  · rw [if_neg h]
    have h2 : ¬ (rest.reverse.dropWhile isPySpace).reverse = [] := by
      simp only [List.isEmpty_iff] at h
      intro hcontra
      apply h
      have h3 := congrArg List.reverse hcontra
      simpa using h3
    rw [if_neg h2, List.reverse_append]
    simp

theorem stripR_eq_nil_iff (l : List Char) :
    stripR l = [] ↔ ∀ c ∈ l, isPySpace c = true := by
  unfold stripR stripL
  constructor
  · intro h c hc
    have h2 : l.reverse.dropWhile isPySpace = [] := by
      have h3 := congrArg List.reverse h
      simpa using h3
    exact List.dropWhile_eq_nil_iff.mp h2 c (List.mem_reverse.mpr hc)
  · intro h
    have h2 : l.reverse.dropWhile isPySpace = [] :=
      List.dropWhile_eq_nil_iff.mpr (fun c hc => h c (List.mem_reverse.mp hc))
    rw [h2]
    rfl

theorem stripL_stripR_comm (l : List Char) :
    stripL (stripR l) = stripR (stripL l) := by
  induction l with
  | nil => rfl
  | cons c rest ih =>
    rw [stripR_cons]
    by_cases hrest : stripR rest = []
    · rw [if_pos hrest]
      have hall : ∀ x ∈ rest, isPySpace x = true :=
        (stripR_eq_nil_iff rest).mp hrest
      have hLnil : stripL rest = [] :=
        List.dropWhile_eq_nil_iff.mpr hall
      by_cases hc : isPySpace c
      · rw [if_pos hc]
        rw [show stripL (c :: rest) = stripL rest from by
          simp [stripL, List.dropWhile_cons, hc]]
        rw [hLnil]
        rfl
      · rw [if_neg hc]
        rw [show stripL (c :: rest) = c :: rest from
          stripL_cons_nonspace c rest (by simpa using hc)]
        rw [stripR_cons, if_pos hrest, if_neg hc]
        exact stripL_cons_nonspace c [] (by simpa using hc)
    · rw [if_neg hrest]
      by_cases hc : isPySpace c
      · have hRne : stripR rest ≠ [] := hrest
        have hhead : stripL (c :: stripR rest) = stripL (stripR rest) := by
          simp [stripL, List.dropWhile_cons, hc]
        rw [hhead, ih]
        rw [show stripL (c :: rest) = stripL rest from by
          simp [stripL, List.dropWhile_cons, hc]]
      · rw [show stripL (c :: stripR rest) = c :: stripR rest from
          stripL_cons_nonspace c _ (by simpa using hc)]
        rw [show stripL (c :: rest) = c :: rest from
          stripL_cons_nonspace c rest (by simpa using hc)]
        rw [stripR_cons, if_neg hrest]

theorem pyStripList_idem (l : List Char) :
    pyStripList (pyStripList l) = pyStripList l := by
  unfold pyStripList
  rw [stripL_stripR_comm, stripL_idem, stripR_idem]

theorem pyStripList_stripR (l : List Char) :
    pyStripList (stripR l) = pyStripList l := by
  unfold pyStripList
  rw [stripL_stripR_comm, stripR_idem]

theorem stripR_append_nonspace (l₁ l₂ : List Char) (c : Char)
    (hc : isPySpace c = false) :
    stripR ((l₁ ++ [c]) ++ l₂) = (l₁ ++ [c]) ++ stripR l₂ := by
  unfold stripR stripL
  rw [List.reverse_append, List.reverse_append]
  rw [List.dropWhile_append]
  by_cases h : (l₂.reverse.dropWhile isPySpace).isEmpty
  · rw [if_pos h]
    have h2 : (l₂.reverse.dropWhile isPySpace).reverse = [] := by
      simp only [List.isEmpty_iff] at h
      rw [h]
      rfl
    rw [h2, List.append_nil]
    rw [show ([c] : List Char).reverse ++ l₁.reverse = c :: l₁.reverse from by
      simp]
    rw [show (c :: l₁.reverse).dropWhile isPySpace = c :: l₁.reverse from by
      simp [List.dropWhile_cons, hc]]
    simp
  · rw [if_neg h, List.reverse_append]
    simp

/-! ## Strip membership lemmas -/

theorem mem_stripL {c : Char} {l : List Char} (h : c ∈ stripL l) : c ∈ l :=
  (List.dropWhile_sublist _).subset h

theorem mem_stripR {c : Char} {l : List Char} (h : c ∈ stripR l) : c ∈ l := by
  unfold stripR at h
  have h2 : c ∈ stripL l.reverse := List.mem_reverse.mp h
  exact List.mem_reverse.mp (mem_stripL h2)

theorem mem_pyStripList {c : Char} {l : List Char} (h : c ∈ pyStripList l) :
    c ∈ l :=
  mem_stripL (mem_stripR h)

theorem mem_stripCharsList {c : Char} (cs : List Char) {l : List Char}
    (h : c ∈ stripCharsList cs l) : c ∈ l := by
  unfold stripCharsList at h
  have h2 := List.mem_reverse.mp h
  have h3 := (List.dropWhile_sublist _).subset h2
  have h4 := List.mem_reverse.mp h3
  exact (List.dropWhile_sublist _).subset h4

/-! ## chSplit lemmas -/

theorem chSplit_ne_nil (sep : Char) (l : List Char) : chSplit sep l ≠ [] := by
  cases l with
  | nil => simp [chSplit]
  | cons c rest =>
    simp only [chSplit]
    cases chSplit sep rest with
    | nil => simp
    | cons g gs =>
      by_cases hc : c = sep <;> simp [hc]

theorem chSplit_cons_sep (sep : Char) (l : List Char) :
    chSplit sep (sep :: l) = [] :: chSplit sep l := by
  cases hs : chSplit sep l with
  | nil => exact absurd hs (chSplit_ne_nil sep l)
  | cons g gs => simp [chSplit, hs]

theorem chSplit_part_no_sep (sep : Char) :
    ∀ (l part : List Char), part ∈ chSplit sep l → ∀ x ∈ part, ¬ x = sep := by
  intro l
  induction l with
  | nil =>
    intro part h
    simp only [chSplit, List.mem_singleton] at h
    subst h
    intro x hx
    simp at hx
  | cons c rest ih =>
    intro part h
    cases hs : chSplit sep rest with
    | nil => exact absurd hs (chSplit_ne_nil sep rest)
    | cons g gs =>
      rw [show chSplit sep (c :: rest) =
          (if c = sep then [] :: g :: gs else (c :: g) :: gs) from by
        simp [chSplit, hs]] at h
      by_cases hc : c = sep
      · rw [if_pos hc] at h
        rcases List.mem_cons.mp h with h1 | h2
        · subst h1
          intro x hx
          simp at hx
        · exact ih part (hs ▸ h2)
      · rw [if_neg hc] at h
        rcases List.mem_cons.mp h with h1 | h2
        · subst h1
          intro x hx
          rcases List.mem_cons.mp hx with h3 | h4
          · subst h3
            exact hc
          · exact ih g (hs ▸ List.mem_cons_self g gs) x h4
        · exact ih part (hs ▸ List.mem_cons.mpr (Or.inr h2))

theorem chSplit_append_nosep (sep : Char) :
    ∀ (l₁ l₂ : List Char), (∀ x ∈ l₁, ¬ x = sep) →
    chSplit sep (l₁ ++ l₂) =
      (l₁ ++ (chSplit sep l₂).headD []) :: (chSplit sep l₂).tail := by
  intro l₁
  induction l₁ with
  | nil =>
    intro l₂ _
    rw [List.nil_append]
    cases hs : chSplit sep l₂ with
    | nil => exact absurd hs (chSplit_ne_nil sep l₂)
    | cons g gs => simp
  | cons c rest ih =>
    intro l₂ h
    have hc : ¬ c = sep := h c (List.mem_cons_self c rest)
    rw [List.cons_append]
    cases hs : chSplit sep (rest ++ l₂) with
    | nil => exact absurd hs (chSplit_ne_nil sep (rest ++ l₂))
    | cons g gs =>
      rw [show chSplit sep (c :: (rest ++ l₂)) = (c :: g) :: gs from by
        simp [chSplit, hs, hc]]
      have h2 := ih l₂ (fun x hx => h x (List.mem_cons.mpr (Or.inr hx)))
      rw [hs] at h2
      have hg : g = rest ++ (chSplit sep l₂).headD [] :=
        (List.cons.injEq _ _ _ _).mp h2 |>.1
      have hgs : gs = (chSplit sep l₂).tail :=
        (List.cons.injEq _ _ _ _).mp h2 |>.2
      rw [hg, hgs]
      simp

theorem chSplit_append_sep (sep : Char) (l₁ rest : List Char)
    (h : ∀ x ∈ l₁, ¬ x = sep) :
    chSplit sep (l₁ ++ sep :: rest) = l₁ :: chSplit sep rest := by
  rw [chSplit_append_nosep sep l₁ (sep :: rest) h, chSplit_cons_sep]
  simp

theorem chSplit_nosep (sep : Char) (l : List Char)
    (h : ∀ x ∈ l, ¬ x = sep) : chSplit sep l = [l] := by
  have h2 := chSplit_append_nosep sep l [] h
  rw [List.append_nil] at h2
  rw [h2]
  simp [chSplit]

/-! ## isPrefixOf helpers -/

theorem isPrefixOf_append_self (l x : List Char) :
    l.isPrefixOf (l ++ x) = true := by
  induction l with
  | nil => simp [List.isPrefixOf]
  | cons c rest ih => simp [List.isPrefixOf, ih]

theorem isPrefixOf_cons_ne (a b : Char) (as bs : List Char) (h : ¬ a = b) :
    (a :: as).isPrefixOf (b :: bs) = false := by
  simp [List.isPrefixOf]
  intro hab
  exact absurd hab h

/-! ## Serialize / parse round-trip -/

/-- The trimming the cache round-trip applies to a result: title and
summary lose surrounding whitespace. -/
def trimResult (r : StoryResult) : StoryResult :=
  { r with translation := pyStrip r.translation,
           summary := pyStrip r.summary }

theorem valid_cat_cases (c : String) (h : c ∈ VALID_CATEGORIES) :
    c = ("ai") ∨ c = ("code") ∨ c = ("data") ∨ c = ("science") ∨
    c = ("security") ∨ c = ("design") ∨ c = ("business") ∨ c = ("work") ∨
    c = ("learn") ∨ c = ("other") := by
  simpa [VALID_CATEGORIES] using h

theorem valid_no_comma (c : String) (h : c ∈ VALID_CATEGORIES) :
    ∀ x ∈ c.data, ¬ x = (',') := by
  rcases valid_cat_cases c h with h | h | h | h | h | h | h | h | h | h <;>
    subst h <;> decide

theorem valid_strip_fixed (c : String) (h : c ∈ VALID_CATEGORIES) :
    pyStripList c.data = c.data := by
  rcases valid_cat_cases c h with h | h | h | h | h | h | h | h | h | h <;>
    subst h <;> decide

theorem stripR_append_cons (l₁ l₂ : List Char) (c : Char)
    (hc : isPySpace c = false) :
    stripR (l₁ ++ c :: l₂) = l₁ ++ c :: stripR l₂ := by
  have h := stripR_append_nonspace l₁ l₂ c hc
  simpa [List.append_assoc] using h

theorem pyStripList_field_append (kl : List Char) (c : Char) (t y : List Char)
    (hcons : kl ++ [('=')] = c :: t) (hc : isPySpace c = false) :
    pyStripList ((kl ++ [('=')]) ++ y) = (kl ++ [('=')]) ++ stripR y := by
  unfold pyStripList
  have hL : stripL ((kl ++ [('=')]) ++ y) = (kl ++ [('=')]) ++ y := by
    rw [hcons, List.cons_append]
    exact stripL_cons_nonspace c (t ++ y) hc
  rw [hL]
  exact stripR_append_nonspace kl y ('=') (by decide)

/-- Splitting the stripped serialized value into its four parts. -/
theorem chSplit_stripped_four (a₁ a₂ a₃ a₄ : List Char) (c₁ : Char)
    (t₁ : List Char) (ha₁ : a₁ = c₁ :: t₁) (hc₁ : isPySpace c₁ = false)
    (h₁ : ∀ x ∈ a₁, ¬ x = (',')) (h₂ : ∀ x ∈ a₂, ¬ x = (','))
    (h₃ : ∀ x ∈ a₃, ¬ x = (',')) (h₄ : ∀ x ∈ a₄, ¬ x = (',')) :
    chSplit (',')
      (pyStripList (a₁ ++ (',') :: (a₂ ++ (',') :: (a₃ ++ (',') :: a₄)))) =
      [a₁, a₂, a₃, stripR a₄] := by
  subst ha₁
  unfold pyStripList
  have hL : stripL ((c₁ :: t₁) ++ (',') :: (a₂ ++ (',') :: (a₃ ++ (',') :: a₄))) =
      (c₁ :: t₁) ++ (',') :: (a₂ ++ (',') :: (a₃ ++ (',') :: a₄)) := by
    rw [List.cons_append]
    exact stripL_cons_nonspace c₁ _ hc₁
  rw [hL]
  have hassoc :
      (c₁ :: t₁) ++ (',') :: (a₂ ++ (',') :: (a₃ ++ (',') :: a₄)) =
      (((c₁ :: t₁) ++ (',') :: a₂) ++ (',') :: a₃) ++ (',') :: a₄ := by
    simp
  rw [hassoc, stripR_append_cons _ _ _ (by decide)]
  have hassoc2 :
      (((c₁ :: t₁) ++ (',') :: a₂) ++ (',') :: a₃) ++ (',') :: stripR a₄ =
      (c₁ :: t₁) ++ (',') :: (a₂ ++ (',') :: (a₃ ++ (',') :: stripR a₄)) := by
    simp
  rw [hassoc2]
  rw [chSplit_append_sep _ _ _ h₁, chSplit_append_sep _ _ _ h₂,
    chSplit_append_sep _ _ _ h₃,
    chSplit_nosep _ _ (fun x hx => h₄ x (mem_stripR hx))]

theorem serialize_split (r : StoryResult)
    (hcat : r.category ∈ VALID_CATEGORIES)
    (htr : ∀ x ∈ r.translation.data, ¬ x = (','))
    (hsu : ∀ x ∈ r.summary.data, ¬ x = (',')) :
    chSplit (',') (pyStrip (serialize_result r)).data =
      [("category=").data ++ r.category.data,
       ("rank=").data ++ (if r.is_top then ("top") else ("regular")).data,
       ("title=").data ++ r.translation.data,
       ("summary=").data ++ stripR r.summary.data] := by
  have hv : (pyStrip (serialize_result r)).data =
      pyStripList (("category=").data ++ r.category.data ++ (",rank=").data ++
        (if r.is_top then ("top") else ("regular")).data ++ (",title=").data ++
        r.translation.data ++ (",summary=").data ++ r.summary.data) := rfl
  rw [hv]
  have hA : ("category=").data ++ r.category.data ++ (",rank=").data ++
      (if r.is_top then ("top") else ("regular")).data ++ (",title=").data ++
      r.translation.data ++ (",summary=").data ++ r.summary.data =
      (("category=").data ++ r.category.data) ++ (',') ::
        ((("rank=").data ++ (if r.is_top then ("top") else ("regular")).data) ++
          (',') :: ((("title=").data ++ r.translation.data) ++
            (',') :: (("summary=").data ++ r.summary.data))) := by
    rw [show (",rank=").data = (',') :: ("rank=").data from by decide,
      show (",title=").data = (',') :: ("title=").data from by decide,
      show (",summary=").data = (',') :: ("summary=").data from by decide]
    simp [List.append_assoc]
  rw [hA]
  have hcatcomma : ∀ x ∈ ("category=").data ++ r.category.data, ¬ x = (',') := by
    intro x hx
    rcases List.mem_append.mp hx with h | h
    · have hconc : ∀ y ∈ ("category=").data, ¬ y = (',') := by decide
      exact hconc x h
    · exact valid_no_comma r.category hcat x h
  have hrankcomma : ∀ x ∈ ("rank=").data ++
      (if r.is_top then ("top") else ("regular")).data, ¬ x = (',') := by
    cases r.is_top <;> decide
  have htitlecomma : ∀ x ∈ ("title=").data ++ r.translation.data,
      ¬ x = (',') := by
    intro x hx
    rcases List.mem_append.mp hx with h | h
    · have hconc : ∀ y ∈ ("title=").data, ¬ y = (',') := by decide
      exact hconc x h
    · exact htr x h
  have hsumcomma : ∀ x ∈ ("summary=").data ++ r.summary.data, ¬ x = (',') := by
    intro x hx
    rcases List.mem_append.mp hx with h | h
    · have hconc : ∀ y ∈ ("summary=").data, ¬ y = (',') := by decide
      exact hconc x h
    · exact hsu x h
  rw [chSplit_stripped_four _ _ _ _ ('c')
    (("ategory=").data ++ r.category.data)
    (by rw [show ("category=").data = ('c') :: ("ategory=").data from by
        decide]
        rfl)
    (by decide) hcatcomma hrankcomma htitlecomma hsumcomma]
  have h4 : stripR (("summary=").data ++ r.summary.data) =
      ("summary=").data ++ stripR r.summary.data := by
    rw [show ("summary=").data = ("summary").data ++ [('=')] from by decide]
    exact stripR_append_nonspace _ _ _ (by decide)
  rw [h4]

theorem pyStripList_cat_part (r : StoryResult) :
    pyStripList (("category=").data ++ r.category.data) =
      ("category=").data ++ stripR r.category.data := by
  rw [show ("category=").data = ("category").data ++ [('=')] from by decide]
  exact pyStripList_field_append _ ('c') (("ategory=").data) _ (by decide)
    (by decide)

theorem pyStripList_rank_part (r : StoryResult) :
    pyStripList (("rank=").data ++
        (if r.is_top then ("top") else ("regular")).data) =
      ("rank=").data ++ stripR (if r.is_top then ("top")
        else ("regular")).data := by
  rw [show ("rank=").data = ("rank").data ++ [('=')] from by decide]
  exact pyStripList_field_append _ ('r') (("ank=").data) _ (by decide)
    (by decide)

theorem pyStripList_title_part (r : StoryResult) :
    pyStripList (("title=").data ++ r.translation.data) =
      ("title=").data ++ stripR r.translation.data := by
  rw [show ("title=").data = ("title").data ++ [('=')] from by decide]
  exact pyStripList_field_append _ ('t') (("itle=").data) _ (by decide)
    (by decide)

theorem pyStripList_sum_part (r : StoryResult) :
    pyStripList (("summary=").data ++ stripR r.summary.data) =
      ("summary=").data ++ stripR r.summary.data := by
  rw [show ("summary=").data = ("summary").data ++ [('=')] from by decide]
  rw [pyStripList_field_append _ ('s') (("ummary=").data) _ (by decide)
    (by decide)]
  rw [stripR_idem]

theorem bool_not_of_eq_false {b : Bool} (h : b = false) : ¬ b = true := by
  simp [h]

theorem pred_true_cat (r : StoryResult) :
    fieldPred ("category") (("category=").data ++ r.category.data) = true := by
  unfold fieldPred
  rw [pyStripList_cat_part,
    show ("category=").data = ("category").data ++ [('=')] from by decide]
  exact isPrefixOf_append_self _ _

theorem pred_true_rank (r : StoryResult) :
    fieldPred ("rank") (("rank=").data ++
      (if r.is_top then ("top") else ("regular")).data) = true := by
  unfold fieldPred
  rw [pyStripList_rank_part,
    show ("rank=").data = ("rank").data ++ [('=')] from by decide]
  exact isPrefixOf_append_self _ _

theorem pred_true_title (r : StoryResult) :
    fieldPred ("title") (("title=").data ++ r.translation.data) = true := by
  unfold fieldPred
  rw [pyStripList_title_part,
    show ("title=").data = ("title").data ++ [('=')] from by decide]
  exact isPrefixOf_append_self _ _

theorem pred_true_sum (r : StoryResult) :
    fieldPred ("summary")
      (("summary=").data ++ stripR r.summary.data) = true := by
  unfold fieldPred
  rw [pyStripList_sum_part,
    show ("summary=").data = ("summary").data ++ [('=')] from by decide]
  exact isPrefixOf_append_self _ _

theorem pred_false_on_cat (r : StoryResult) (f : String) (c : Char)
    (t : List Char) (hf : f.data ++ [('=')] = c :: t) (hc : ¬ c = ('c')) :
    fieldPred f (("category=").data ++ r.category.data) = false := by
  unfold fieldPred
  rw [pyStripList_cat_part,
    show ("category=").data = ('c') :: ("ategory=").data from by decide,
    List.cons_append, hf]
  exact isPrefixOf_cons_ne _ _ _ _ hc

theorem pred_false_on_rank (r : StoryResult) (f : String) (c : Char)
    (t : List Char) (hf : f.data ++ [('=')] = c :: t) (hc : ¬ c = ('r')) :
    fieldPred f (("rank=").data ++
      (if r.is_top then ("top") else ("regular")).data) = false := by
  unfold fieldPred
  rw [pyStripList_rank_part,
    show ("rank=").data = ('r') :: ("ank=").data from by decide,
    List.cons_append, hf]
  exact isPrefixOf_cons_ne _ _ _ _ hc

theorem pred_false_on_title (r : StoryResult) (f : String) (c : Char)
    (t : List Char) (hf : f.data ++ [('=')] = c :: t) (hc : ¬ c = ('t')) :
    fieldPred f (("title=").data ++ r.translation.data) = false := by
  unfold fieldPred
  rw [pyStripList_title_part,
    show ("title=").data = ('t') :: ("itle=").data from by decide,
    List.cons_append, hf]
  exact isPrefixOf_cons_ne _ _ _ _ hc

theorem extract_cat_serialize (r : StoryResult)
    (hcat : r.category ∈ VALID_CATEGORIES)
    (htr : ∀ x ∈ r.translation.data, ¬ x = (','))
    (hsu : ∀ x ∈ r.summary.data, ¬ x = (',')) :
    extract_field (pyStrip (serialize_result r)) ("category") = r.category := by
  unfold extract_field
  rw [serialize_split r hcat htr hsu,
    List.find?_cons_of_pos _ (pred_true_cat r)]
  show String.mk (pyStripList
    ((pyStripList (("category=").data ++ r.category.data)).drop
      (("category").data ++ [('=')]).length)) = r.category
  rw [pyStripList_cat_part,
    show ("category=").data = ("category").data ++ [('=')] from by decide,
    List.drop_left, pyStripList_stripR, valid_strip_fixed r.category hcat]

theorem extract_rank_serialize (r : StoryResult)
    (hcat : r.category ∈ VALID_CATEGORIES)
    (htr : ∀ x ∈ r.translation.data, ¬ x = (','))
    (hsu : ∀ x ∈ r.summary.data, ¬ x = (',')) :
    extract_field (pyStrip (serialize_result r)) ("rank") =
      (if r.is_top then ("top") else ("regular")) := by
  unfold extract_field
  rw [serialize_split r hcat htr hsu,
    List.find?_cons_of_neg _ (bool_not_of_eq_false
      (pred_false_on_cat r ("rank") ('r') (("ank=").data) (by decide)
        (by decide))),
    List.find?_cons_of_pos _ (pred_true_rank r)]
  show String.mk (pyStripList
    ((pyStripList (("rank=").data ++
      (if r.is_top then ("top") else ("regular")).data)).drop
      (("rank").data ++ [('=')]).length)) =
    (if r.is_top then ("top") else ("regular"))
  rw [pyStripList_rank_part,
    show ("rank=").data = ("rank").data ++ [('=')] from by decide,
    List.drop_left, pyStripList_stripR]
  cases r.is_top <;> decide

theorem extract_title_serialize (r : StoryResult)
    (hcat : r.category ∈ VALID_CATEGORIES)
    (htr : ∀ x ∈ r.translation.data, ¬ x = (','))
    (hsu : ∀ x ∈ r.summary.data, ¬ x = (',')) :
    extract_field (pyStrip (serialize_result r)) ("title") =
      pyStrip r.translation := by
  unfold extract_field
  rw [serialize_split r hcat htr hsu,
    List.find?_cons_of_neg _ (bool_not_of_eq_false
      (pred_false_on_cat r ("title") ('t') (("itle=").data) (by decide)
        (by decide))),
    List.find?_cons_of_neg _ (bool_not_of_eq_false
      (pred_false_on_rank r ("title") ('t') (("itle=").data) (by decide)
        (by decide))),
    List.find?_cons_of_pos _ (pred_true_title r)]
  show String.mk (pyStripList
    ((pyStripList (("title=").data ++ r.translation.data)).drop
      (("title").data ++ [('=')]).length)) = pyStrip r.translation
  rw [pyStripList_title_part,
    show ("title=").data = ("title").data ++ [('=')] from by decide,
    List.drop_left, pyStripList_stripR]
  rfl

theorem extract_summary_serialize (r : StoryResult)
    (hcat : r.category ∈ VALID_CATEGORIES)
    (htr : ∀ x ∈ r.translation.data, ¬ x = (','))
    (hsu : ∀ x ∈ r.summary.data, ¬ x = (',')) :
    extract_field (pyStrip (serialize_result r)) ("summary") =
      pyStrip r.summary := by
  unfold extract_field
  rw [serialize_split r hcat htr hsu,
    List.find?_cons_of_neg _ (bool_not_of_eq_false
      (pred_false_on_cat r ("summary") ('s') (("ummary=").data) (by decide)
        (by decide))),
    List.find?_cons_of_neg _ (bool_not_of_eq_false
      (pred_false_on_rank r ("summary") ('s') (("ummary=").data) (by decide)
        (by decide))),
    List.find?_cons_of_neg _ (bool_not_of_eq_false
      (pred_false_on_title r ("summary") ('s') (("ummary=").data) (by decide)
        (by decide))),
    List.find?_cons_of_pos _ (pred_true_sum r)]
  show String.mk (pyStripList
    ((pyStripList (("summary=").data ++ stripR r.summary.data)).drop
      (("summary").data ++ [('=')]).length)) = pyStrip r.summary
  rw [pyStripList_sum_part,
    show ("summary=").data = ("summary").data ++ [('=')] from by decide,
    List.drop_left, pyStripList_stripR]
  rfl

/-- The cache round-trip: a serialized result parses back with its
title and summary whitespace-trimmed. -/
theorem parse_serialize_roundtrip (r : StoryResult)
    (hcat : r.category ∈ VALID_CATEGORIES)
    (htr : ∀ x ∈ r.translation.data, ¬ x = (','))
    (hsu : ∀ x ∈ r.summary.data, ¬ x = (',')) :
    parse_cache_line (pyStrip (serialize_result r)) = some (trimResult r) := by
  simp only [parse_cache_line]
  rw [extract_cat_serialize r hcat htr hsu,
    extract_rank_serialize r hcat htr hsu,
    extract_title_serialize r hcat htr hsu,
    extract_summary_serialize r hcat htr hsu]
  have hcont : VALID_CATEGORIES.contains r.category = true := by
    rcases valid_cat_cases _ hcat with h|h|h|h|h|h|h|h|h|h <;> rw [h] <;>
      decide
  rw [hcont, if_pos rfl]
  have htop : (decide ((if r.is_top then ("top") else ("regular")) =
      ("top"))) = r.is_top := by
    cases r.is_top <;> decide
  unfold trimResult
  rw [htop]

/-! ## Dict lemmas -/

theorem dictGet_insert_self (k : Nat) (v : StoryResult) :
    ∀ d : List (Nat × StoryResult), dictGet (dictInsert k v d) k = some v := by
  intro d
  induction d with
  | nil =>
    unfold dictInsert dictGet
    rw [List.find?_cons_of_pos _ (by simp)]
  | cons p rest ih =>
    by_cases hp : p.1 = k
    · unfold dictInsert
      rw [if_pos hp]
      unfold dictGet
      rw [List.find?_cons_of_pos _ (by simp [hp])]
    · unfold dictInsert
      rw [if_neg hp]
      unfold dictGet
      rw [List.find?_cons_of_neg _ (by simp only [decide_eq_true_eq]; exact hp)]
      exact ih

theorem dictGet_insert_ne (k k2 : Nat) (v : StoryResult) (hne : ¬ k2 = k) :
    ∀ d : List (Nat × StoryResult),
    dictGet (dictInsert k v d) k2 = dictGet d k2 := by
  intro d
  induction d with
  | nil =>
    unfold dictInsert dictGet
    rw [List.find?_cons_of_neg _ (by
      simp only [decide_eq_true_eq]
      exact fun h => hne h.symm)]
  | cons p rest ih =>
    by_cases hp : p.1 = k
    · unfold dictInsert
      rw [if_pos hp]
      unfold dictGet
      by_cases h2 : p.1 = k2
      · exfalso
        rw [hp] at h2
        exact hne h2.symm
      · rw [List.find?_cons_of_neg _ (by
            simp only [decide_eq_true_eq]
            exact h2),
          List.find?_cons_of_neg _ (by
            simp only [decide_eq_true_eq]
            exact h2)]
    · unfold dictInsert
      rw [if_neg hp]
      unfold dictGet
      by_cases h2 : p.1 = k2
      · rw [List.find?_cons_of_pos _ (by
            simp only [decide_eq_true_eq]
            exact h2),
          List.find?_cons_of_pos _ (by
            simp only [decide_eq_true_eq]
            exact h2)]
      · rw [List.find?_cons_of_neg _ (by
            simp only [decide_eq_true_eq]
            exact h2),
          List.find?_cons_of_neg _ (by
            simp only [decide_eq_true_eq]
            exact h2)]
        exact ih

theorem dictGet_mem {d : List (Nat × StoryResult)} {k : Nat} {v : StoryResult}
    (h : dictGet d k = some v) : (k, v) ∈ d := by
  unfold dictGet at h
  cases hfind : d.find? (fun p => p.1 = k) with
  | none => rw [hfind] at h; cases h
  | some p =>
    rw [hfind] at h
    have hp := List.mem_of_find?_eq_some hfind
    have hkey := List.find?_some hfind
    simp only [decide_eq_true_eq] at hkey
    cases h
    have : p = (k, p.2) := by
      cases p
      simp_all
    rw [← this]
    exact hp

theorem dictInsert_append_of_not_mem (k : Nat) (v : StoryResult) :
    ∀ d : List (Nat × StoryResult), (∀ p ∈ d, ¬ p.1 = k) →
    dictInsert k v d = d ++ [(k, v)] := by
  intro d
  induction d with
  | nil => intro _; rfl
  | cons p rest ih =>
    intro h
    have hp : ¬ p.1 = k := h p (List.mem_cons_self p rest)
    unfold dictInsert
    rw [if_neg hp, ih (fun q hq => h q (List.mem_cons.mpr (Or.inr hq)))]
    rfl

theorem dictGet_eq_none_of_no_key (k : Nat) :
    ∀ d : List (Nat × StoryResult), (∀ p ∈ d, ¬ p.1 = k) →
    dictGet d k = none := by
  intro d
  induction d with
  | nil => intro _; rfl
  | cons p rest ih =>
    intro h
    have hp : ¬ p.1 = k := h p (List.mem_cons_self p rest)
    unfold dictGet
    rw [List.find?_cons_of_neg _ (by simp only [decide_eq_true_eq]; exact hp)]
    exact ih (fun q hq => h q (List.mem_cons.mpr (Or.inr hq)))

/-! ## Parser-output invariants -/

theorem extract_field_no_comma (text field : String) :
    ∀ x ∈ (extract_field text field).data, ¬ x = (',') := by
  unfold extract_field
  cases hfind : (chSplit (',') text.data).find? (fieldPred field) with
  | none =>
    intro x hx
    simp at hx
  | some part =>
    intro x hx
    have h1 : x ∈ (pyStripList part).drop (field.data ++ [('=')]).length :=
      mem_pyStripList hx
    have h2 : x ∈ pyStripList part := List.drop_subset _ _ h1
    have h3 : x ∈ part := mem_pyStripList h2
    have hpart : part ∈ chSplit (',') text.data :=
      List.mem_of_find?_eq_some hfind
    exact chSplit_part_no_sep (',') text.data part hpart x h3

theorem extract_field_strip_fixed (text field : String) :
    pyStrip (extract_field text field) = extract_field text field := by
  unfold extract_field
  cases hfind : (chSplit (',') text.data).find? (fieldPred field) with
  | none => rfl
  | some part =>
    show String.mk (pyStripList (pyStripList _)) = String.mk (pyStripList _)
    rw [pyStripList_idem]

theorem contains_of_mem_valid {c : String} (h : c ∈ VALID_CATEGORIES) :
    VALID_CATEGORIES.contains c = true := by
  rcases valid_cat_cases _ h with h|h|h|h|h|h|h|h|h|h <;> rw [h] <;> decide

theorem mem_valid_of_contains {c : String}
    (h : VALID_CATEGORIES.contains c = true) : c ∈ VALID_CATEGORIES :=
  List.mem_of_elem_eq_true h

theorem mkLineResult_inv (rest : String) :
    (mkLineResult rest).category ∈ VALID_CATEGORIES ∧
    (∀ x ∈ (mkLineResult rest).translation.data, ¬ x = (',')) ∧
    (∀ x ∈ (mkLineResult rest).summary.data, ¬ x = (',')) := by
  refine ⟨?_, ?_, ?_⟩
  · simp only [mkLineResult]
    by_cases hc : VALID_CATEGORIES.contains
        (extract_field (pyLower rest) ("category")) = true
    · rw [hc, if_pos rfl]
      exact mem_valid_of_contains hc
    · rw [if_neg (by simpa using hc)]
      decide
  · intro x hx
    have h2 : x ∈ (extract_field rest ("title")).data :=
      mem_stripCharsList quoteChars hx
    exact extract_field_no_comma rest ("title") x h2
  · intro x hx
    have h2 : x ∈ (extract_field rest ("summary")).data :=
      mem_stripCharsList quoteChars hx
    exact extract_field_no_comma rest ("summary") x h2

theorem parse_result_line_inv (line : String) (num : Int) (r : StoryResult)
    (h : parse_result_line line = some (num, r)) :
    r.category ∈ VALID_CATEGORIES ∧
    (∀ x ∈ r.translation.data, ¬ x = (',')) ∧
    (∀ x ∈ r.summary.data, ¬ x = (',')) := by
  unfold parse_result_line at h
  cases hp : parseLineNum line with
  | none => rw [hp] at h; cases h
  | some nr =>
    rw [hp] at h
    have h2 : (num, r) = (nr.1, mkLineResult nr.2) := by
      cases nr
      cases h
      rfl
    have hr : r = mkLineResult nr.2 := congrArg Prod.snd h2
    rw [hr]
    exact mkLineResult_inv nr.2

theorem parse_cache_line_fields (v : String) (r : StoryResult)
    (h : parse_cache_line v = some r) :
    r = { category := extract_field v ("category"),
          is_top := extract_field v ("rank") = ("top"),
          translation := extract_field v ("title"),
          summary := extract_field v ("summary") } := by
  simp only [parse_cache_line] at h
  by_cases hc : VALID_CATEGORIES.contains (extract_field v ("category")) = true
  · rw [hc, if_pos rfl] at h
    cases h
    rfl
  · rw [if_neg (by simpa using hc)] at h
    cases h

theorem parse_cache_line_trim_fixed (v : String) (r : StoryResult)
    (h : parse_cache_line v = some r) : trimResult r = r := by
  rw [parse_cache_line_fields v r h]
  unfold trimResult
  simp only [extract_field_strip_fixed]

/-! ## Decimal representation lemmas -/

theorem digitChar_isDigit (d : Nat) : (digitChar d).isDigit = true := by
  unfold digitChar
  repeat' split
  all_goals decide

/-- Numeric value of a decimal digit string. -/
def digitsVal (l : List Char) : Nat :=
  l.foldl (fun a c => 10 * a + (c.toNat - 48)) 0

theorem digitChar_val (d : Nat) (hd : d < 10) :
    (digitChar d).toNat - 48 = d := by
  interval_cases d <;> decide

theorem natDigitsGo_append :
    ∀ (fuel n : Nat) (acc : List Char), n < fuel →
    natDigitsGo fuel n acc = natDigitsGo fuel n [] ++ acc := by
  intro fuel
  induction fuel with
  | zero => intro n acc h; omega
  | succ f ih =>
    intro n acc h
    by_cases h10 : n < 10
    · simp only [natDigitsGo, h10, if_true, ite_true]
      rfl
    · simp only [natDigitsGo, h10, if_false, ite_false]
      have hdiv : n / 10 < f := by omega
      rw [ih (n / 10) (digitChar (n % 10) :: acc) hdiv,
        ih (n / 10) [digitChar (n % 10)] hdiv]
      simp

theorem natDigitsGo_fuel :
    ∀ (n fuel₁ fuel₂ : Nat), n < fuel₁ → n < fuel₂ →
    natDigitsGo fuel₁ n [] = natDigitsGo fuel₂ n [] := by
  intro n
  induction n using Nat.strong_induction_on with
  | _ n ih =>
    intro fuel₁ fuel₂ h₁ h₂
    cases fuel₁ with
    | zero => omega
    | succ f₁ =>
      cases fuel₂ with
      | zero => omega
      | succ f₂ =>
        by_cases h10 : n < 10
        · simp only [natDigitsGo, h10, if_true, ite_true]
        · simp only [natDigitsGo, h10, if_false, ite_false]
          have hdiv : n / 10 < n := Nat.div_lt_self (by omega) (by omega)
          rw [natDigitsGo_append f₁ (n / 10) _ (by omega),
            natDigitsGo_append f₂ (n / 10) _ (by omega),
            ih (n / 10) hdiv f₁ f₂ (by omega) (by omega)]

theorem natRepr_digits (n : Nat) :
    ∀ c ∈ (natRepr n).data, c.isDigit = true := by
  have hgen : ∀ (fuel m : Nat) (acc : List Char),
      (∀ c ∈ acc, c.isDigit = true) →
      ∀ c ∈ natDigitsGo fuel m acc, c.isDigit = true := by
    intro fuel
    induction fuel with
    | zero => intro m acc hacc; exact hacc
    | succ f ih =>
      intro m acc hacc c hc
      by_cases h10 : m < 10
      · simp only [natDigitsGo, h10, if_true, ite_true] at hc
        rcases List.mem_cons.mp hc with h | h
        · subst h
          exact digitChar_isDigit _
        · exact hacc c h
      · simp only [natDigitsGo, h10, if_false, ite_false] at hc
        refine ih (m / 10) _ ?_ c hc
        intro x hx
        rcases List.mem_cons.mp hx with h | h
        · subst h
          exact digitChar_isDigit _
        · exact hacc x h
  exact hgen (n + 1) n [] (by intro c hc; simp at hc)

theorem digitsVal_natRepr (n : Nat) : digitsVal ((natRepr n).data) = n := by
  induction n using Nat.strong_induction_on with
  | _ n ih =>
    by_cases h10 : n < 10
    · show digitsVal (natDigitsGo (n + 1) n []) = n
      simp only [natDigitsGo, h10, if_true, ite_true]
      show 10 * 0 + ((digitChar (n % 10)).toNat - 48) = n
      rw [Nat.mod_eq_of_lt h10, digitChar_val n h10]
      omega
    · show digitsVal (natDigitsGo (n + 1) n []) = n
      simp only [natDigitsGo, h10, if_false, ite_false]
      have hdiv : n / 10 < n := Nat.div_lt_self (by omega) (by omega)
      rw [natDigitsGo_append n (n / 10) _ (by omega),
        natDigitsGo_fuel (n / 10) n (n / 10 + 1) (by omega) (by omega)]
      have hval : digitsVal (natDigitsGo (n / 10 + 1) (n / 10) [] ++
          [digitChar (n % 10)]) =
          10 * digitsVal (natDigitsGo (n / 10 + 1) (n / 10) []) +
            ((digitChar (n % 10)).toNat - 48) := by
        unfold digitsVal
        rw [List.foldl_append]
        rfl
      rw [hval]
      have hih : digitsVal (natDigitsGo (n / 10 + 1) (n / 10) []) = n / 10 :=
        ih (n / 10) hdiv
      rw [hih, digitChar_val (n % 10) (Nat.mod_lt _ (by omega))]
      omega

theorem natRepr_inj (a b : Nat) (h : (natRepr a).data = (natRepr b).data) :
    a = b := by
  have ha := digitsVal_natRepr a
  have hb := digitsVal_natRepr b
  rw [h] at ha
  rw [hb] at ha
  exact ha.symm

/-! ## Cache-key injectivity -/

theorem takeWhile_digits_bar (R rest : List Char)
    (hd : ∀ c ∈ R, c.isDigit = true) :
    (R ++ ('|') :: rest).takeWhile (fun c => !(c == ('|'))) = R := by
  induction R with
  | nil => simp [List.takeWhile]
  | cons c t ih =>
    have hc : c.isDigit = true := hd c (List.mem_cons_self c t)
    have hne : (c == ('|')) = false := by
      have : ¬ c = ('|') := by
        intro he
        rw [he] at hc
        exact absurd hc (by decide)
      simpa using this
    rw [List.cons_append]
    rw [List.takeWhile_cons]
    rw [hne]
    show c :: ((t ++ ('|') :: rest).takeWhile (fun c => !(c == ('|')))) = c :: t
    rw [ih (fun x hx => hd x (List.mem_cons.mpr (Or.inr hx)))]

theorem cache_key_inj (s t : Story) (c₁ c₂ lang : String)
    (hne : ¬ s.id = t.id) :
    ¬ cache_key_for_story s c₁ lang = cache_key_for_story t c₂ lang := by
  intro he
  unfold cache_key_for_story at he
  have hdata := congrArg String.data he
  simp only [List.append_assoc, List.cons_append, List.singleton_append,
    List.nil_append, List.cons.injEq, true_and] at hdata
  have htake := congrArg (List.takeWhile (fun c => !(c == ('|')))) hdata
  rw [takeWhile_digits_bar _ _ (natRepr_digits s.id),
    takeWhile_digits_bar _ _ (natRepr_digits t.id)] at htake
  exact hne (natRepr_inj s.id t.id htake)

/-! ## Cache-scan characterisation -/

/-- What the cache scan yields for one story: the parsed cache value
when the key hits and parses, `none` otherwise. -/
def cacheOutcome (contents : Nat → String) (language : String)
    (cache : Cache) (s : Story) : Option StoryResult :=
  match cache (cache_key_for_story s (contents s.id) language) with
  | some v => parse_cache_line (pyStrip v)
  | none => none

/-- The cache-scan fold with its per-story outcome factored out and a
general accumulator. -/
def cacheScanFrom (contents : Nat → String) (language : String)
    (cache : Cache) (stories : List Story)
    (acc : List (Nat × StoryResult)) : List (Nat × StoryResult) :=
  stories.foldl
    (fun acc s =>
      match cacheOutcome contents language cache s with
      | some r => dictInsert s.id r acc
      | none => acc) acc

theorem no_key_of_dictGet_none (k : Nat) :
    ∀ d : List (Nat × StoryResult), dictGet d k = none →
    ∀ p ∈ d, ¬ p.1 = k := by
  intro d
  induction d with
  | nil => intro _ p hp; cases hp
  | cons q rest ih =>
    intro h p hp he
    by_cases hqk : q.1 = k
    · unfold dictGet at h
      rw [List.find?_cons_of_pos _
        (by simp only [decide_eq_true_eq]; exact hqk)] at h
      cases h
    · unfold dictGet at h
      rw [List.find?_cons_of_neg _
        (by simp only [decide_eq_true_eq]; exact hqk)] at h
      rcases List.mem_cons.mp hp with hq | hq
      · subst hq
        exact hqk he
      · exact ih h p hq he

theorem cacheScan_eq_from (stories : List Story) (contents : Nat → String)
    (language : String) (cache : Cache) :
    cacheScan stories contents language cache =
      cacheScanFrom contents language cache stories [] := by
  unfold cacheScan cacheScanFrom
  have hstep : (fun (acc : List (Nat × StoryResult)) (s : Story) =>
      match cache (cache_key_for_story s (contents s.id) language) with
      | some v =>
        match parse_cache_line (pyStrip v) with
        | some r => dictInsert s.id r acc
        | none => acc
      | none => acc) =
    (fun (acc : List (Nat × StoryResult)) (s : Story) =>
      match cacheOutcome contents language cache s with
      | some r => dictInsert s.id r acc
      | none => acc) := by
    funext acc s
    unfold cacheOutcome
    cases cache (cache_key_for_story s (contents s.id) language) with
    | none => rfl
    | some v => cases parse_cache_line (pyStrip v) <;> rfl
  rw [hstep]

theorem cacheScanFrom_untouched (contents : Nat → String) (language : String)
    (cache : Cache) :
    ∀ (stories : List Story) (acc : List (Nat × StoryResult)) (k : Nat),
    (∀ s ∈ stories, ¬ s.id = k) →
    dictGet (cacheScanFrom contents language cache stories acc) k =
      dictGet acc k := by
  intro stories
  induction stories with
  | nil => intro acc k _; rfl
  | cons s rest ih =>
    intro acc k hk
    show dictGet (cacheScanFrom contents language cache rest
      (match cacheOutcome contents language cache s with
       | some r => dictInsert s.id r acc
       | none => acc)) k = dictGet acc k
    rw [ih _ k (fun t ht => hk t (List.mem_cons.mpr (Or.inr ht)))]
    cases ho : cacheOutcome contents language cache s with
    | none => rfl
    | some r =>
      show dictGet (dictInsert s.id r acc) k = dictGet acc k
      exact dictGet_insert_ne s.id k r
        (fun he => hk s (List.mem_cons_self s rest) he.symm) acc

theorem cacheScanFrom_lookup (contents : Nat → String) (language : String)
    (cache : Cache) :
    ∀ (stories : List Story) (acc : List (Nat × StoryResult)) (s : Story),
    (stories.map Story.id).Nodup → s ∈ stories →
    dictGet (cacheScanFrom contents language cache stories acc) s.id =
      (match cacheOutcome contents language cache s with
       | some r => some r
       | none => dictGet acc s.id) := by
  intro stories
  induction stories with
  | nil => intro acc s _ hs; cases hs
  | cons t rest ih =>
    intro acc s hnd hs
    rw [List.map_cons] at hnd
    have hnd2 := List.nodup_cons.mp hnd
    rcases List.mem_cons.mp hs with he | hmem
    · subst he
      show dictGet (cacheScanFrom contents language cache rest
        (match cacheOutcome contents language cache s with
         | some r => dictInsert s.id r acc
         | none => acc)) s.id = _
      rw [cacheScanFrom_untouched contents language cache rest _ s.id
        (by
          intro u hu he2
          exact hnd2.1 (by
            rw [← he2]
            exact List.mem_map.mpr ⟨u, hu, rfl⟩))]
      cases ho : cacheOutcome contents language cache s with
      | none => rfl
      | some r =>
        show dictGet (dictInsert s.id r acc) s.id = some r
        exact dictGet_insert_self s.id r acc
    · show dictGet (cacheScanFrom contents language cache rest
        (match cacheOutcome contents language cache t with
         | some r => dictInsert t.id r acc
         | none => acc)) s.id = _
      rw [ih _ s hnd2.2 hmem]
      cases ho : cacheOutcome contents language cache s with
      | some r => rfl
      | none =>
        cases ht : cacheOutcome contents language cache t with
        | none => rfl
        | some r =>
          show dictGet (dictInsert t.id r acc) s.id = dictGet acc s.id
          refine dictGet_insert_ne t.id s.id r ?_ acc
          intro he2
          exact hnd2.1 (by
            rw [← he2]
            exact List.mem_map.mpr ⟨s, hmem, rfl⟩)

theorem cacheScanFrom_length (contents : Nat → String) (language : String)
    (cache : Cache) :
    ∀ (stories : List Story) (acc : List (Nat × StoryResult)),
    (stories.map Story.id).Nodup →
    (∀ s ∈ stories, dictGet acc s.id = none) →
    (∀ s ∈ stories, (cacheOutcome contents language cache s).isSome = true) →
    (cacheScanFrom contents language cache stories acc).length =
      acc.length + stories.length := by
  intro stories
  induction stories with
  | nil => intro acc _ _ _; rfl
  | cons s rest ih =>
    intro acc hnd hacc hsome
    rw [List.map_cons] at hnd
    have hnd2 := List.nodup_cons.mp hnd
    cases ho : cacheOutcome contents language cache s with
    | none =>
      have := hsome s (List.mem_cons_self s rest)
      rw [ho] at this
      cases this
    | some r =>
      show (cacheScanFrom contents language cache rest
        (match cacheOutcome contents language cache s with
         | some r => dictInsert s.id r acc
         | none => acc)).length = acc.length + (rest.length + 1)
      rw [ho]
      have hins : dictInsert s.id r acc = acc ++ [(s.id, r)] :=
        dictInsert_append_of_not_mem s.id r acc
          (no_key_of_dictGet_none s.id acc
            (hacc s (List.mem_cons_self s rest)))
      have hlen := ih (dictInsert s.id r acc)
        hnd2.2
        (by
          intro t ht
          rw [dictGet_insert_ne s.id t.id r
            (by
              intro he2
              exact hnd2.1 (by
                rw [← he2]
                exact List.mem_map.mpr ⟨t, ht, rfl⟩)) acc]
          exact hacc t (List.mem_cons.mpr (Or.inr ht)))
        (fun t ht => hsome t (List.mem_cons.mpr (Or.inr ht)))
      rw [hlen, hins]
      simp
      omega

/-! ## Response-parsing fold invariant -/

/-- A result whose category is assignable and whose free-text fields
carry no comma (every result produced by the line parser satisfies
this; it is what the serialise / parse round-trip needs). -/
def goodResult (r : StoryResult) : Prop :=
  r.category ∈ VALID_CATEGORIES ∧
  (∀ x ∈ r.translation.data, ¬ x = (',')) ∧
  (∀ x ∈ r.summary.data, ¬ x = (','))

/-- The response-parsing fold of `process_stories` over an explicit
line list and a general accumulator. -/
def parseLines (stories : List Story) (contents : Nat → String)
    (language : String) (lines : List (List Char))
    (acc : List (Nat × StoryResult) × Cache) :
    List (Nat × StoryResult) × Cache :=
  lines.foldl
    (fun acc lineCs =>
      match lineContribution stories (String.mk lineCs) with
      | none => acc
      | some (st, r) =>
        (dictInsert st.id r acc.1,
         cacheWrite acc.2
           (cache_key_for_story st (contents st.id) language)
           (serialize_result r)))
    acc

theorem parseAndCache_eq_lines (stories : List Story)
    (contents : Nat → String) (language : String) (cache : Cache)
    (text : String) :
    parseAndCache stories contents language cache text =
      parseLines stories contents language
        (chSplit (Char.ofNat 10) (pyStripList text.data)) ([], cache) := rfl

theorem lineContribution_mem (stories : List Story) (line : String)
    (st : Story) (r : StoryResult)
    (h : lineContribution stories line = some (st, r)) :
    st ∈ stories ∧ goodResult r := by
  unfold lineContribution at h
  cases hp : parse_result_line line with
  | none => rw [hp] at h; cases h
  | some p =>
    rcases p with ⟨num, r0⟩
    rw [hp] at h
    have h2 : (if 0 ≤ num ∧ num < (stories.length : Int) then
        match stories[num.toNat]? with
        | some st0 => some (st0, r0)
        | none => none
      else none) = some (st, r) := h
    by_cases hrange : 0 ≤ num ∧ num < (stories.length : Int)
    · rw [if_pos hrange] at h2
      cases hg : stories[num.toNat]? with
      | none => rw [hg] at h2; cases h2
      | some st0 =>
        rw [hg] at h2
        cases h2
        refine ⟨List.getElem?_mem hg, ?_⟩
        exact parse_result_line_inv line num r hp
    · rw [if_neg hrange] at h2
      cases h2

/-- One run's invariant over the response-parsing fold: every story
whose id is in the accumulated dict has a good result whose
serialisation sits in the cache under the story's key; stories not yet
in the dict still see the starting cache at their key. -/
def scanInv (contents : Nat → String) (language : String) (cache0 : Cache)
    (s : Story) (acc : List (Nat × StoryResult) × Cache) : Prop :=
  (∀ r, dictGet acc.1 s.id = some r →
    goodResult r ∧
    acc.2 (cache_key_for_story s (contents s.id) language) =
      some (serialize_result r)) ∧
  (dictGet acc.1 s.id = none →
    acc.2 (cache_key_for_story s (contents s.id) language) =
      cache0 (cache_key_for_story s (contents s.id) language))

theorem parseLines_inv (stories : List Story) (contents : Nat → String)
    (language : String) (cache0 : Cache)
    (hnodup : (stories.map Story.id).Nodup) :
    ∀ (lines : List (List Char)) (acc : List (Nat × StoryResult) × Cache),
    (∀ s ∈ stories, scanInv contents language cache0 s acc) →
    ∀ s ∈ stories,
      scanInv contents language cache0 s
        (parseLines stories contents language lines acc) := by
  intro lines
  induction lines with
  | nil => intro acc hacc s hs; exact hacc s hs
  | cons l rest ih =>
    intro acc hacc s hs
    show scanInv contents language cache0 s
      (parseLines stories contents language rest
        (match lineContribution stories (String.mk l) with
         | none => acc
         | some (st, r) =>
           (dictInsert st.id r acc.1,
            cacheWrite acc.2
              (cache_key_for_story st (contents st.id) language)
              (serialize_result r))))
    cases hc : lineContribution stories (String.mk l) with
    | none => exact ih acc hacc s hs
    | some p =>
      rcases p with ⟨st, r⟩
      have hstep : (match some (st, r) with
         | none => acc
         | some (st, r) =>
           ((dictInsert st.id r acc.1,
             cacheWrite acc.2
               (cache_key_for_story st (contents st.id) language)
               (serialize_result r)) :
             List (Nat × StoryResult) × Cache)) =
          (dictInsert st.id r acc.1,
           cacheWrite acc.2
             (cache_key_for_story st (contents st.id) language)
             (serialize_result r)) := rfl
      rw [hstep]
      refine ih _ ?_ s hs
      intro t ht
      rcases lineContribution_mem stories (String.mk l) st r hc with
        ⟨hstmem, hgood⟩
      by_cases hid : t.id = st.id
      · have hts : t = st :=
          List.inj_on_of_nodup_map hnodup ht hstmem hid
        unfold scanInv
        dsimp only
        rw [hts]
        constructor
        · intro r2 hr2
          rw [dictGet_insert_self st.id r acc.1] at hr2
          cases hr2
          refine ⟨hgood, ?_⟩
          unfold cacheWrite
          rw [if_pos rfl]
        · intro hnone
          rw [dictGet_insert_self st.id r acc.1] at hnone
          cases hnone
      · have hkey : ¬ cache_key_for_story t (contents t.id) language =
            cache_key_for_story st (contents st.id) language :=
          cache_key_inj t st (contents t.id) (contents st.id) language hid
        have hdg : dictGet (dictInsert st.id r acc.1) t.id =
            dictGet acc.1 t.id := dictGet_insert_ne st.id t.id r hid acc.1
        unfold scanInv
        dsimp only
        constructor
        · intro r2 hr2
          rw [hdg] at hr2
          rcases (hacc t ht).1 r2 hr2 with ⟨hg2, hc2⟩
          refine ⟨hg2, ?_⟩
          unfold cacheWrite
          rw [if_neg hkey]
          exact hc2
        · intro hnone
          rw [hdg] at hnone
          unfold cacheWrite
          rw [if_neg hkey]
          exact (hacc t ht).2 hnone

/-! ## Retry-loop outcome characterisation -/

theorem processAttempts_outcome (stories : List Story)
    (contents : Nat → String) (language : String)
    (cached : List (Nat × StoryResult)) (net : Nat → GenResponse) :
    ∀ (remaining attempt : Nat) (cache : Cache) (sleeps : List Nat),
    (∃ text,
      (processAttempts stories contents language cached net
        remaining attempt cache sleeps).results =
        (parseAndCache stories contents language cache text).1 ∧
      (processAttempts stories contents language cached net
        remaining attempt cache sleeps).cache =
        (parseAndCache stories contents language cache text).2) ∨
    ((processAttempts stories contents language cached net
        remaining attempt cache sleeps).results = cached ∧
     (processAttempts stories contents language cached net
        remaining attempt cache sleeps).cache = cache) := by
  intro remaining
  induction remaining with
  | zero => intro attempt cache sleeps; right; exact ⟨rfl, rfl⟩
  | succ rem ih =>
    intro attempt cache sleeps
    unfold processAttempts
    cases hnet : net attempt with
    | ok text => left; exact ⟨text, rfl, rfl⟩
    | rateLimited => exact ih (attempt + 1) cache (sleeps ++ [10 * (attempt + 1)])
    | otherError => right; exact ⟨rfl, rfl⟩

/-! ## process_stories branch lemmas -/

theorem process_stories_guard (api_key : String) (stories : List Story)
    (contents : Nat → String) (channel : Channel) (cache : Cache)
    (net : Nat → GenResponse)
    (hguard : api_key = String.mk [] ∨ stories = []) :
    process_stories api_key stories contents channel cache net =
      ⟨[], cache, 0, []⟩ := by
  unfold process_stories
  rw [if_pos hguard]

theorem process_stories_allCached (api_key : String) (stories : List Story)
    (contents : Nat → String) (channel : Channel) (cache : Cache)
    (net : Nat → GenResponse)
    (hguard : ¬ (api_key = String.mk [] ∨ stories = []))
    (hlen : (cacheScan stories contents channel.language cache).length =
      stories.length) :
    process_stories api_key stories contents channel cache net =
      ⟨cacheScan stories contents channel.language cache, cache, 0, []⟩ := by
  unfold process_stories
  rw [if_neg hguard]
  show (if (cacheScan stories contents channel.language cache).length =
      stories.length then
      (⟨cacheScan stories contents channel.language cache, cache, 0, []⟩ :
        ProcOutcome)
    else processAttempts stories contents channel.language
      (cacheScan stories contents channel.language cache) net 3 0 cache []) = _
  rw [if_pos hlen]

theorem process_stories_attempts (api_key : String) (stories : List Story)
    (contents : Nat → String) (channel : Channel) (cache : Cache)
    (net : Nat → GenResponse)
    (hguard : ¬ (api_key = String.mk [] ∨ stories = []))
    (hlen : ¬ (cacheScan stories contents channel.language cache).length =
      stories.length) :
    process_stories api_key stories contents channel cache net =
      processAttempts stories contents channel.language
        (cacheScan stories contents channel.language cache) net 3 0 cache [] := by
  unfold process_stories
  rw [if_neg hguard]
  show (if (cacheScan stories contents channel.language cache).length =
      stories.length then
      (⟨cacheScan stories contents channel.language cache, cache, 0, []⟩ :
        ProcOutcome)
    else processAttempts stories contents channel.language
      (cacheScan stories contents channel.language cache) net 3 0 cache []) = _
  rw [if_neg hlen]

/-- Whenever a run of `process_stories` returned a result for a story,
the cache it leaves behind hits for that story and parses back to the
whitespace-trimmed result. -/
theorem process_cache_covers (api_key : String) (stories : List Story)
    (contents : Nat → String) (channel : Channel) (cache0 : Cache)
    (net1 : Nat → GenResponse)
    (hnodup : (stories.map Story.id).Nodup)
    (s : Story) (hs : s ∈ stories) (rs : StoryResult)
    (hrs : dictGet (process_stories api_key stories contents channel cache0
      net1).results s.id = some rs) :
    cacheOutcome contents channel.language
      (process_stories api_key stories contents channel cache0 net1).cache s =
      some (trimResult rs) := by
  by_cases hguard : api_key = String.mk [] ∨ stories = []
  · rw [process_stories_guard api_key stories contents channel cache0 net1
      hguard] at hrs
    exact Option.noConfusion hrs
  · have hscan : ∀ (cache : Cache),
        dictGet (cacheScan stories contents channel.language cache) s.id =
          some rs →
        cacheOutcome contents channel.language cache s =
          some (trimResult rs) := by
      intro cache hdg
      rw [cacheScan_eq_from,
        cacheScanFrom_lookup contents channel.language cache stories [] s
          hnodup hs] at hdg
      cases ho : cacheOutcome contents channel.language cache s with
      | none =>
        rw [ho] at hdg
        exact Option.noConfusion hdg
      | some r =>
        rw [ho] at hdg
        cases hdg
        have htrim : trimResult rs = rs := by
          unfold cacheOutcome at ho
          cases hv : cache (cache_key_for_story s (contents s.id)
              channel.language) with
          | none => rw [hv] at ho; exact Option.noConfusion ho
          | some v =>
            rw [hv] at ho
            exact parse_cache_line_trim_fixed (pyStrip v) rs ho
        rw [htrim]
    by_cases hlen : (cacheScan stories contents channel.language
        cache0).length = stories.length
    · rw [process_stories_allCached api_key stories contents channel cache0
        net1 hguard hlen] at hrs ⊢
      exact hscan cache0 hrs
    · rw [process_stories_attempts api_key stories contents channel cache0
        net1 hguard hlen] at hrs ⊢
      rcases processAttempts_outcome stories contents channel.language
          (cacheScan stories contents channel.language cache0) net1 3 0
          cache0 [] with ⟨text, hres, hcache⟩ | ⟨hres, hcache⟩
      · rw [hres] at hrs
        rw [hcache]
        rw [parseAndCache_eq_lines] at hrs ⊢
        have hinit : ∀ t ∈ stories,
            scanInv contents channel.language cache0 t
              (([], cache0) : List (Nat × StoryResult) × Cache) := by
          intro t _
          constructor
          · intro r hr
            exact Option.noConfusion hr
          · intro _
            rfl
        have hinv := parseLines_inv stories contents channel.language cache0
          hnodup (chSplit (Char.ofNat 10) (pyStripList text.data))
          ([], cache0) hinit s hs
        rcases hinv.1 rs hrs with ⟨hgood, hckey⟩
        unfold cacheOutcome
        rw [hckey]
        exact parse_serialize_roundtrip rs hgood.1 hgood.2.1 hgood.2.2
      · rw [hres] at hrs
        rw [hcache]
        exact hscan cache0 hrs

/-! ## Claim C1 — enrichment cache idempotence -/

/-- **C1** (amended): with distinct story ids, when the first
`process_stories` run returned a result for every story, a second run
over the same stories, contents, and channel language, starting from
the cache the first run left behind, issues zero generation-API calls —
but its per-story results are the whitespace-trimmed image of the first
run's results (the cache round-trip strips surrounding whitespace from
title and summary), not necessarily the identical results the spec
promises. -/
theorem c1_cache_idempotence (api_key : String) (stories : List Story)
    (contents : Nat → String) (channel : Channel) (cache0 : Cache)
    (net1 net2 : Nat → GenResponse)
    (hnodup : (stories.map Story.id).Nodup)
    (hcov : ∀ s ∈ stories,
      ¬ dictGet (process_stories api_key stories contents channel cache0
        net1).results s.id = none) :
    (process_stories api_key stories contents channel
      (process_stories api_key stories contents channel cache0 net1).cache
      net2).calls = 0 ∧
    ∀ s ∈ stories,
      dictGet (process_stories api_key stories contents channel
        (process_stories api_key stories contents channel cache0 net1).cache
        net2).results s.id =
      Option.map trimResult
        (dictGet (process_stories api_key stories contents channel cache0
          net1).results s.id) := by
  by_cases hguard : api_key = String.mk [] ∨ stories = []
  · have ho2 := process_stories_guard api_key stories contents channel
      (process_stories api_key stories contents channel cache0 net1).cache
      net2 hguard
    constructor
    · rw [ho2]
    · intro s hs
      rcases hguard with hk | hst
      · exfalso
        have hc := hcov s hs
        rw [process_stories_guard api_key stories contents channel cache0
          net1 (Or.inl hk)] at hc
        exact hc rfl
      · subst hst
        cases hs
  · have hAll : ∀ s ∈ stories,
        (cacheOutcome contents channel.language
          (process_stories api_key stories contents channel cache0
            net1).cache s).isSome = true := by
      intro s hs
      cases ho : dictGet (process_stories api_key stories contents channel
          cache0 net1).results s.id with
      | none => exact absurd ho (hcov s hs)
      | some rs =>
        rw [process_cache_covers api_key stories contents channel cache0
          net1 hnodup s hs rs ho]
        rfl
    have hlen2 : (cacheScan stories contents channel.language
        (process_stories api_key stories contents channel cache0
          net1).cache).length = stories.length := by
      rw [cacheScan_eq_from,
        cacheScanFrom_length contents channel.language
          (process_stories api_key stories contents channel cache0 net1).cache
          stories [] hnodup (fun s _ => rfl) hAll]
      simp
    have ho2 := process_stories_allCached api_key stories contents channel
      (process_stories api_key stories contents channel cache0 net1).cache
      net2 hguard hlen2
    constructor
    · rw [ho2]
    · intro s hs
      rw [ho2]
      show dictGet (cacheScan stories contents channel.language
        (process_stories api_key stories contents channel cache0
          net1).cache) s.id =
        Option.map trimResult
          (dictGet (process_stories api_key stories contents channel cache0
            net1).results s.id)
      rw [cacheScan_eq_from,
        cacheScanFrom_lookup contents channel.language
          (process_stories api_key stories contents channel cache0
            net1).cache stories [] s hnodup hs]
      cases ho : dictGet (process_stories api_key stories contents channel
          cache0 net1).results s.id with
      | none => exact absurd ho (hcov s hs)
      | some rs =>
        rw [process_cache_covers api_key stories contents channel cache0
          net1 hnodup s hs rs ho]
        rfl

/-- A one-story input for the cache-idempotence example runs. -/
def c1Story : Story := ⟨1, ("T"), (""), 0, 0⟩

/-- A concrete channel for the cache-idempotence example runs. -/
def c1Channel : Channel :=
  ⟨("hn_en"), ("@x"), ("T"), ("en"), (""), ("f"), ("2026-02-07"), 7, 50, 50⟩

/-- Concrete article contents for the example runs. -/
def c1Contents : Nat → String := fun _ => ("c")

/-- First-run generation oracle: a valid one-line response whose quoted
title carries a trailing space. -/
def c1Net : Nat → GenResponse :=
  fun _ => GenResponse.ok
    ("1. category=ai, rank=top, title=\x22x \x22, summary=y")

/-- Second-run generation oracle; it must never be consulted. -/
def c1Net2 : Nat → GenResponse := fun _ => GenResponse.otherError

/-- The first example run, from an empty cache. -/
def c1Run1 : ProcOutcome :=
  process_stories ("k") [c1Story] c1Contents c1Channel (fun _ => none) c1Net

/-- The second example run, from the cache the first run left behind. -/
def c1Run2 : ProcOutcome :=
  process_stories ("k") [c1Story] c1Contents c1Channel c1Run1.cache c1Net2

/-- Witness for C1 at a concrete input: the hypotheses hold for the
one-story run and the amended conclusion evaluates there. -/
theorem c1_cache_idempotence_witness :
    c1Run2.calls = 0 ∧
    dictGet c1Run2.results 1 = Option.map trimResult (dictGet c1Run1.results 1) := by
  have h := c1_cache_idempotence ("k") [c1Story] c1Contents c1Channel
    (fun _ => none) c1Net c1Net2 (by decide) (by decide)
  exact ⟨h.1, h.2 c1Story (by decide)⟩

/-- Counterexample to C1 as stated: the second run issues zero
generation-API calls, yet its results differ from the first run's — the
cache round-trip has trimmed the trailing space off the title. -/
theorem c1_cache_idempotence_counterexample :
    c1Run2.calls = 0 ∧ ¬ c1Run2.results = c1Run1.results := by decide

/-! ## Claim C6 — enricher retry semantics -/

/-- C6: per run the enricher issues at most 3 generation-API attempts;
attempt `i + 1` is issued only when attempt `i` returned HTTP 429; the
recorded sleeps are 10 seconds times the 1-based number of each
rate-limited attempt, in order; and whenever at least one attempt was
made and none succeeded, the returned results are exactly those of the
initial cache scan. -/
theorem c6_retry_semantics (api_key : String) (stories : List Story)
    (contents : Nat → String) (channel : Channel) (cache : Cache)
    (net : Nat → GenResponse) :
    (process_stories api_key stories contents channel cache net).calls ≤ 3 ∧
    (∀ i : Nat, i + 1 <
        (process_stories api_key stories contents channel cache net).calls →
      net i = GenResponse.rateLimited) ∧
    (process_stories api_key stories contents channel cache net).sleeps =
      ((List.range
          (process_stories api_key stories contents channel cache net).calls).filter
        (fun i => decide (net i = GenResponse.rateLimited))).map
        (fun i => 10 * (i + 1)) ∧
    (1 ≤ (process_stories api_key stories contents channel cache net).calls →
      (∀ i : Nat,
        i < (process_stories api_key stories contents channel cache net).calls →
        ∀ t : String, ¬ (net i = GenResponse.ok t)) →
      (process_stories api_key stories contents channel cache net).results =
        cacheScan stories contents channel.language cache) := by
  simp only [process_stories]
  by_cases hguard : api_key = String.mk [] ∨ stories = []
  · rw [if_pos hguard]
    refine ⟨?_, ?_, rfl, ?_⟩
    · show (0 : Nat) ≤ 3
      omega
    · intro i hi
      exact absurd (show i + 1 < 0 from hi) (by omega)
    · intro h1 _
      exact absurd (show 1 ≤ 0 from h1) (by omega)
  · rw [if_neg hguard]
    by_cases hall :
        (cacheScan stories contents channel.language cache).length =
          stories.length
    · rw [if_pos hall]
      refine ⟨?_, ?_, rfl, ?_⟩
      · show (0 : Nat) ≤ 3
        omega
      · intro i hi
        exact absurd (show i + 1 < 0 from hi) (by omega)
      · intro _ _
        rfl
    · rw [if_neg hall]
      cases hn0 : net 0 with
      | ok t0 =>
        simp only [processAttempts, hn0]
        refine ⟨by omega, fun i hi => absurd hi (by omega), ?_, ?_⟩
        · simp [List.range_succ, hn0]
        · intro _ hno
          exact absurd hn0 (hno 0 (by omega) t0)
      | otherError =>
        simp only [processAttempts, hn0]
        refine ⟨by omega, fun i hi => absurd hi (by omega), ?_, ?_⟩
        · simp [List.range_succ, hn0]
        · intro _ _
          trivial
      | rateLimited =>
        cases hn1 : net 1 with
        | ok t1 =>
          simp only [processAttempts, hn0, hn1]
          refine ⟨by omega, ?_, ?_, ?_⟩
          · intro i hi
            have hi0 : i = 0 := by omega
            subst hi0
            exact hn0
          · simp [List.range_succ, hn0, hn1]
          · intro _ hno
            exact absurd hn1 (hno 1 (by omega) t1)
        | otherError =>
          simp only [processAttempts, hn0, hn1]
          refine ⟨by omega, ?_, ?_, ?_⟩
          · intro i hi
            have hi0 : i = 0 := by omega
            subst hi0
            exact hn0
          · simp [List.range_succ, hn0, hn1]
          · intro _ _
            trivial
        | rateLimited =>
          cases hn2 : net 2 with
          | ok t2 =>
            simp only [processAttempts, hn0, hn1, hn2]
            refine ⟨by omega, ?_, ?_, ?_⟩
            · intro i hi
              have hi01 : i = 0 ∨ i = 1 := by omega
              rcases hi01 with h | h <;> subst h
              · exact hn0
              · exact hn1
            · simp [List.range_succ, hn0, hn1, hn2]
            · intro _ hno
              exact absurd hn2 (hno 2 (by omega) t2)
          | otherError =>
            simp only [processAttempts, hn0, hn1, hn2]
            refine ⟨by omega, ?_, ?_, ?_⟩
            · intro i hi
              have hi01 : i = 0 ∨ i = 1 := by omega
              rcases hi01 with h | h <;> subst h
              · exact hn0
              · exact hn1
            · simp [List.range_succ, hn0, hn1, hn2]
            · intro _ _
              trivial
          | rateLimited =>
            simp only [processAttempts, hn0, hn1, hn2]
            refine ⟨by omega, ?_, ?_, ?_⟩
            · intro i hi
              have hi01 : i = 0 ∨ i = 1 := by omega
              rcases hi01 with h | h <;> subst h
              · exact hn0
              · exact hn1
            · simp [List.range_succ, hn0, hn1, hn2]
            · intro _ _
              trivial

/-- Witness for C6 at a concrete run: three rate-limited attempts, the
backoffs are 10, 20, 30 seconds and the cached results come back. -/
theorem c6_retry_semantics_witness :
    1 ≤ (process_stories ("k") [⟨1, ("T"), (""), 0, 0⟩] (fun _ => (""))
      ⟨("hn_en"), ("@x"), ("T"), ("en"), (""), ("f"), ("2026-02-07"), 7, 50, 50⟩
      (fun _ => none) (fun _ => GenResponse.rateLimited)).calls ∧
    (process_stories ("k") [⟨1, ("T"), (""), 0, 0⟩] (fun _ => (""))
      ⟨("hn_en"), ("@x"), ("T"), ("en"), (""), ("f"), ("2026-02-07"), 7, 50, 50⟩
      (fun _ => none) (fun _ => GenResponse.rateLimited)).sleeps =
      [10, 20, 30] ∧
    (process_stories ("k") [⟨1, ("T"), (""), 0, 0⟩] (fun _ => (""))
      ⟨("hn_en"), ("@x"), ("T"), ("en"), (""), ("f"), ("2026-02-07"), 7, 50, 50⟩
      (fun _ => none) (fun _ => GenResponse.rateLimited)).results =
      cacheScan [⟨1, ("T"), (""), 0, 0⟩] (fun _ => ("")) ("en")
        (fun _ => none) := by
  refine ⟨by decide, ?_, ?_⟩
  · have h := (c6_retry_semantics ("k") [⟨1, ("T"), (""), 0, 0⟩]
      (fun _ => (""))
      ⟨("hn_en"), ("@x"), ("T"), ("en"), (""), ("f"), ("2026-02-07"), 7, 50, 50⟩
      (fun _ => none) (fun _ => GenResponse.rateLimited)).2.2.1
    rw [h]
    decide
  · exact (c6_retry_semantics ("k") [⟨1, ("T"), (""), 0, 0⟩]
      (fun _ => (""))
      ⟨("hn_en"), ("@x"), ("T"), ("en"), (""), ("f"), ("2026-02-07"), 7, 50, 50⟩
      (fun _ => none) (fun _ => GenResponse.rateLimited)).2.2.2 (by decide)
      (fun i _ t hok => by cases hok)

/-! ## Claim C8 — markup escaping of embedded text -/

/-- C8 (amended): the rendered story lines factor through `escape_html`
on the title and the summary — and `escape_html` leaves no raw `<`, `>`
or non-entity `&` in its output — but the URL is embedded verbatim,
unescaped (see the counterexample). -/
theorem c8_markup_escaping (s : FmtStory) (titles : Nat → Option String)
    (summaries : Option (Nat → Option String)) (lang : String) :
    (format_story_lines s titles summaries lang =
      formatStoryLinesEsc s (escape_html ((titles s.id).getD s.title))
        (escape_html (summaryOf s summaries)) lang) ∧
    (∀ t : String, noTagChars (escape_html t).data = true ∧
      ampEntityOk (escape_html t).data = true) :=
  ⟨format_story_lines_factors s titles summaries lang,
   fun t => escape_html_safe t⟩

/-- C8 counterexample: a URL containing `&` is embedded in the title
line verbatim; the claim predicts the escaped form, which the code
never produces. -/
theorem c8_markup_escaping_counterexample :
    (format_story_lines ⟨1, ("t"), ("http://e.com/a&b"), 0, 0, 0, (""), (""),
        false⟩ (fun _ => none) none ("en")).headD (String.mk []) =
      ("<b><a href=\"http://e.com/a&b\">t</a></b>") ∧
    ¬ ((format_story_lines ⟨1, ("t"), ("http://e.com/a&b"), 0, 0, 0, (""),
        (""), false⟩ (fun _ => none) none ("en")).headD (String.mk []) =
      ("<b><a href=\"http://e.com/a&amp;b\">t</a></b>")) := by
  constructor
  · decide
  · decide

end HNDigest
